import Mathlib

/-!
Verification of the privacy-preserving federated-learning pipeline
(`fl_pipeline/app/custom`): the geometric-median aggregator, the
differential-privacy mechanism, the selective homomorphic-encryption
module, the round controller and the metrics writer, shallowly embedded
over the reals.
-/

set_option exponentiation.threshold 20000

namespace FL

/-- Dense tensor: a shape tuple together with the row-major (C-order)
flat list of its float elements, modelled over `ℝ`. -/
structure Tensor where
  shape : List ℕ
  data : List ℝ

/-- Number of elements as reported by `torch.Tensor.numel()`:
the product of the shape. -/
def Tensor.numel (t : Tensor) : ℕ := t.shape.prod

/-- A real torch tensor always satisfies this: the flat data holds
exactly `shape.prod` elements. -/
def Tensor.wf (t : Tensor) : Prop := t.data.length = t.shape.prod

instance (t : Tensor) : Decidable t.wf := by
  unfold Tensor.wf; infer_instance

/-- Named-tensor map: an ordered mapping from keys to tensors, as a
Python `dict` / `OrderedDict` with keys of type `κ` (Python: `str`). -/
abbrev NamedTensorMap (κ : Type) : Type := List (κ × Tensor)

/-- Python `dict` lookup (`state_dict[k]`) on an ordered association
list: the first pair whose key matches, `none` on `KeyError`. -/
def lookupKey {κ α : Type} [DecidableEq κ] : List (κ × α) → κ → Option α
  | [], _ => none
  | (k, v) :: rest, q => if q = k then some v else lookupKey rest q

/-- Embedding of `GeometricMedianAggregator._flatten_state_dict`:
concatenate, in key-list order, each tensor's row-major elements.
Returns `none` when a key is absent (Python raises `KeyError`). -/
def flatten_state_dict {κ : Type} [DecidableEq κ]
    (sd : NamedTensorMap κ) : List κ → Option (List ℝ)
  | [] => some []
  | k :: ks =>
    match lookupKey sd k, flatten_state_dict sd ks with
    | some t, some rest => some (t.data ++ rest)
    | _, _ => none

/-- Embedding of `GeometricMedianAggregator._unflatten_to_state_dict`:
slice the flat vector at the given element counts and reshape. The
iteration stops at the shortest of the three lists (Python `zip`), and
a slice whose length differs from the shape product is a reshape error
(`none`). -/
def unflatten_to_state_dict {κ : Type} (flat : List ℝ) :
    List κ → List (List ℕ) → List ℕ → Option (NamedTensorMap κ)
  | [], _, _ => some []
  | _ :: _, [], _ => some []
  | _ :: _, _ :: _, [] => some []
  | k :: ks, s :: ss, n :: ns =>
    let arr := flat.take n
    if arr.length = s.prod then
      match unflatten_to_state_dict (flat.drop n) ks ss ns with
      | some rest => some ((k, ⟨s, arr⟩) :: rest)
      | none => none
    else none

/-- Keys of a named-tensor map, in order (Python `list(d.keys())`). -/
def mapKeys {κ : Type} (sd : NamedTensorMap κ) : List κ := sd.map Prod.fst

/-- Shapes of a named-tensor map, in key order. -/
def mapShapes {κ : Type} (sd : NamedTensorMap κ) : List (List ℕ) :=
  sd.map fun p => p.2.shape

/-- Element counts of a named-tensor map, in key order. -/
def mapNumels {κ : Type} (sd : NamedTensorMap κ) : List ℕ :=
  sd.map fun p => p.2.numel


/-- Componentwise difference of two flat vectors (`y - p` on numpy
rows). -/
def vsub (a b : List ℝ) : List ℝ := List.zipWith (fun x y => x - y) a b

/-- Euclidean norm of a flat vector (`np.linalg.norm`). -/
noncomputable def norm2 (v : List ℝ) : ℝ :=
  Real.sqrt ((v.map fun x => x ^ 2).sum)

/-- Componentwise sum of a list of equal-length rows
(`np.sum(..., axis=0)`). -/
def vecSum : List (List ℝ) → List ℝ
  | [] => []
  | [v] => v
  | v :: rest => List.zipWith (fun x y => x + y) v (vecSum rest)

/-- Embedding of `GeometricMedianAggregator` constructor parameters. -/
structure Aggregator where
  max_iter : ℕ
  eps : ℝ

/-- One Weiszfeld update (the body of the loop in
`GeometricMedianAggregator._weiszfeld`): inverse-distance weights with
the `1e-12 / 1e12` zero-distance clamp, then the weighted average of
the points. -/
noncomputable def wStep (points : List (List ℝ)) (y : List ℝ) : List ℝ :=
  let weights := points.map fun p =>
    let d := norm2 (vsub y p)
    if d > 1e-12 then 1 / d else 1e12
  let total := weights.sum
  (vecSum (List.zipWith (fun w p => p.map fun x => w * x) weights points)).map
    fun x => x / total

/-- Iteration structure of `_weiszfeld`: with `fuel` loop iterations
remaining, update `y`, return early with the current iteration index
(`maxIter - fuel`) when the shift drops below `eps`, and return
`(y, maxIter)` when the loop exhausts. -/
noncomputable def weiszfeldAux (points : List (List ℝ)) (eps : ℝ) (maxIter : ℕ) :
    ℕ → List ℝ → List ℝ × ℕ
  | 0, y => (y, maxIter)
  | fuel + 1, y =>
    let yNew := wStep points y
    let shift := norm2 (vsub yNew y)
    if shift < eps then (yNew, maxIter - fuel)
    else weiszfeldAux points eps maxIter fuel yNew

/-- Embedding of `GeometricMedianAggregator._weiszfeld`: initialise at
the componentwise mean and iterate at most `max_iter` times. -/
noncomputable def weiszfeld (agg : Aggregator) (points : List (List ℝ)) :
    List ℝ × ℕ :=
  weiszfeldAux points agg.eps agg.max_iter agg.max_iter
    ((vecSum points).map fun x => x / points.length)

/-- Failure modes of `GeometricMedianAggregator.aggregate`. -/
inductive AggError
  | emptyInput
  | keyMissing
  | raggedStack
  | reshapeError
  deriving DecidableEq, Repr

/-- Embedding of `GeometricMedianAggregator.aggregate`: error on an
empty list, return a clone for a single client, otherwise flatten every
client along the first client's keys (`KeyError` if one is missing,
`np.stack` error if lengths diverge), run Weiszfeld and unflatten the
median vector. -/
noncomputable def aggregate {κ : Type} [DecidableEq κ] (agg : Aggregator)
    (client_updates : List (NamedTensorMap κ)) :
    Except AggError (NamedTensorMap κ) :=
  match client_updates with
  | [] => .error .emptyInput
  | [sd] => .ok sd
  | sd0 :: sd1 :: rest =>
    let keys := mapKeys sd0
    match (sd0 :: sd1 :: rest).mapM fun sd => flatten_state_dict sd keys with
    | none => .error .keyMissing
    | some flats =>
      if flats.all fun f => f.length = flats.headI.length then
        match unflatten_to_state_dict (weiszfeld agg flats).1 keys
            (mapShapes sd0) (mapNumels sd0) with
        | some out => .ok out
        | none => .error .reshapeError
      else .error .raggedStack

/-- Attribute state of a `GeometricMedianAggregator` Python object:
the two constructor attributes, plus the optional `_last_iterations`
attribute slot (`none` while the attribute has never been assigned;
no statement in the source ever assigns it). -/
structure AggregatorObj where
  max_iter : ℕ
  eps : ℝ
  _last_iterations : Option ℕ

/-- Effect of a full `aggregate` call on the object: the return value
together with the object state afterwards. The method body performs no
attribute assignment, so the state is returned unchanged — in
particular `_num_iters` from `_weiszfeld` is discarded. -/
noncomputable def aggregate_obj {κ : Type} [DecidableEq κ] (agg : AggregatorObj)
    (client_updates : List (NamedTensorMap κ)) :
    Except AggError (NamedTensorMap κ) × AggregatorObj :=
  (aggregate ⟨agg.max_iter, agg.eps⟩ client_updates, agg)

/-- Embedding of `getattr(self.aggregator, '_last_iterations', 0)` in
`GeomMedianController.control_flow`: the value the controller persists
as the round's `weiszfeld_iterations` metric. -/
def weiszfeld_iters_persisted (agg : AggregatorObj) : ℕ :=
  agg._last_iterations.getD 0

/-- The three 2-D client points of the known-median scenario. -/
def pts3 : List (List ℝ) := [[0, 0], [1, 0], [0, 1]]

/-- The three single-key client updates (Python
`{p: [0,0]}, {p: [1,0]}, {p: [0,1]}`); the shared key `p` is modelled
as the key `0 : ℕ`. -/
def updates3 : List (NamedTensorMap ℕ) :=
  [[(0, ⟨[2], [0, 0]⟩)], [(0, ⟨[2], [1, 0]⟩)], [(0, ⟨[2], [0, 1]⟩)]]

/-- Distance from the diagonal point `(t, t)` to `(1,0)` (and, by
symmetry, to `(0,1)`). -/
noncomputable def gfun (t : ℝ) : ℝ := Real.sqrt (2 * t ^ 2 - 2 * t + 1)

/-- Scalar form of one Weiszfeld update on the diagonal for the three
points of `pts3`: `(t,t)` maps to `(ffun t, ffun t)`. -/
noncomputable def ffun (t : ℝ) : ℝ :=
  Real.sqrt 2 * t / (gfun t + 2 * (Real.sqrt 2 * t))

/-- Invariant region of the diagonal iteration: strictly between the
geometric median `(3-√3)/6` and the starting mean `1/3`, expressed
polynomially. -/
def Qreg (t : ℝ) : Prop := 6 * t ^ 2 - 6 * t + 1 < 0 ∧ t ≤ 1 / 3

/-- The scalar geometric median of the triangle `(0,0), (1,0), (0,1)`:
its Fermat point sits at `(tstar, tstar)`. -/
noncomputable def tstar : ℝ := (3 - Real.sqrt 3) / 6

/-- Embedding of `DPNoise` instance state after `__init__`. -/
structure DPNoise where
  epsilon : ℝ
  delta : ℝ
  sensitivity : ℝ
  max_grad_norm : ℝ
  sigma : ℝ

/-- Validation failures raised by `DPNoise.__init__`. -/
inductive DPInitError
  | invalidEpsilon
  | invalidDelta
  deriving DecidableEq, Repr

/-- Embedding of `DPNoise.compute_sigma`:
`sigma = sensitivity * sqrt(2 * ln(1.25 / delta)) / epsilon`. -/
noncomputable def compute_sigma (epsilon delta sensitivity : ℝ) : ℝ :=
  sensitivity * Real.sqrt (2 * Real.log (1.25 / delta)) / epsilon

/-- Embedding of `DPNoise.__init__`: reject `epsilon ≤ 0` and
`delta ≤ 0 or delta ≥ 1`; otherwise store the parameters and fix
`sigma` from `compute_sigma`. No check touches `sensitivity` or
`max_grad_norm`. -/
noncomputable def dpnoise_init (epsilon delta sensitivity max_grad_norm : ℝ) :
    Except DPInitError DPNoise :=
  if epsilon ≤ 0 then .error .invalidEpsilon
  else if delta ≤ 0 ∨ 1 ≤ delta then .error .invalidDelta
  else .ok ⟨epsilon, delta, sensitivity, max_grad_norm,
    compute_sigma epsilon delta sensitivity⟩

/-- Round-half-to-even of a real to an integer, the semantics of
Python's builtin `round` applied to an exact value. -/
noncomputable def roundHalfEven (y : ℝ) : ℤ :=
  if Int.fract y < 1 / 2 then ⌊y⌋
  else if 1 / 2 < Int.fract y then ⌊y⌋ + 1
  else if Even ⌊y⌋ then ⌊y⌋ else ⌊y⌋ + 1

/-- Python `round(x, n)`: round half-to-even at the `n`-th decimal. -/
noncomputable def pyRound (x : ℝ) (n : ℕ) : ℝ :=
  (roundHalfEven (x * 10 ^ n) : ℝ) / 10 ^ n

/-- Result record of `DPNoise.get_privacy_spent`. -/
structure PrivacySpent where
  epsilon_total : ℝ
  delta_total : ℝ
  num_rounds : ℕ
  sigma : ℝ

/-- Advanced-composition bound computed inside `get_privacy_spent`
before rounding:
`eps_total = eps * sqrt(2 * T * ln(1/delta)) + T * eps * (exp(eps) - 1)`. -/
noncomputable def eps_total_raw (eps delta : ℝ) (T : ℕ) : ℝ :=
  eps * Real.sqrt (2 * (T : ℝ) * Real.log (1 / delta)) +
    (T : ℝ) * eps * (Real.exp eps - 1)

/-- Embedding of `DPNoise.get_privacy_spent`. -/
noncomputable def get_privacy_spent (d : DPNoise) (num_rounds : ℕ) : PrivacySpent :=
  let T : ℝ := num_rounds
  let eps_total := eps_total_raw d.epsilon d.delta num_rounds
  let delta_total := T * d.delta + d.delta
  ⟨pyRound eps_total 6, pyRound delta_total 10, num_rounds, pyRound d.sigma 6⟩

/-- Failure modes of `SelectiveHE.decrypt_head` / `decrypt_tensor`:
an unregistered key (`ValueError`, the spec's `MissingShape`), or a
`torch.reshape` size mismatch. -/
inductive HEDecryptError
  | missingShape
  | reshapeError
  deriving DecidableEq, Repr

/-- Embedding of `SelectiveHE.decrypt_tensor` applied to ciphertext
bytes produced under the instance's context: a ciphertext is modelled
by the flat list of slot values its decryption yields (CKKS padding
may make it longer than the tensor). The code truncates to the shape's
element count and reshapes; reshape fails when fewer values than
`prod(shape)` are available. -/
def decrypt_tensor (payload : List ℝ) (shape : List ℕ) : Option Tensor :=
  let flat := payload.take shape.prod
  if flat.length = shape.prod then some ⟨shape, flat⟩ else none

/-- Embedding of `SelectiveHE.decrypt_head`: walk the cipher map in
order; an entry whose key has no recorded shape raises `MissingShape`;
otherwise decrypt with the registered shape. -/
def decrypt_head {κ : Type} [DecidableEq κ] (shapes : List (κ × List ℕ)) :
    List (κ × List ℝ) → Except HEDecryptError (List (κ × Tensor))
  | [] => .ok []
  | (name, enc) :: rest =>
    match lookupKey shapes name with
    | none => .error .missingShape
    | some shape =>
      match decrypt_tensor enc shape with
      | none => .error .reshapeError
      | some t =>
        match decrypt_head shapes rest with
        | .ok r => .ok ((name, t) :: r)
        | .error e => .error e

/-- Value of a collected `head_weights` entry at the controller: a
plaintext torch tensor (modelled by its flat data) or CKKS ciphertext
bytes (modelled by the flat values their decryption would yield). -/
inductive HVal
  | tensor (data : List ℝ)
  | cipher (payload : List ℝ)

/-- Tensor payload of a plaintext value; `none` on ciphertext bytes. -/
def HVal.getData : HVal → Option (List ℝ)
  | .tensor d => some d
  | .cipher _ => none

/-- Failures of the controller's head-averaging loop: `torch.stack` on
non-tensor values raises `TypeError`; stacking tensors of different
sizes raises a shape error. -/
inductive HeadAggError
  | typeError
  | shapeMismatch
  deriving DecidableEq, Repr

/-- Argument check of `torch.stack(stacked)`: every element must be a
tensor, else `TypeError`. -/
def getTensors : List HVal → Option (List (List ℝ))
  | [] => some []
  | .tensor d :: rest => (getTensors rest).map fun l => d :: l
  | .cipher _ :: _ => none

/-- Embedding of `torch.stack(stacked).mean(dim=0)`: requires equal
sizes, returns the element-wise arithmetic mean. -/
noncomputable def stackMean (vs : List (List ℝ)) : Option (List ℝ) :=
  match vs with
  | [] => none
  | v :: rest =>
    if rest.all fun w => w.length = v.length then
      some ((vecSum (v :: rest)).map fun x => x / ((v :: rest).length : ℝ))
    else none

/-- Per-key loop of the controller's head aggregation
(`for key in head_updates[0]` at aggregator.py:124-128): stack the
values of the clients that have the key and average them; a key nobody
provides is skipped (`if stacked:`). -/
noncomputable def mean_head_go {κ : Type} [DecidableEq κ]
    (head_updates : List (List (κ × HVal))) :
    List κ → Except HeadAggError (List (κ × List ℝ))
  | [] => .ok []
  | key :: ks =>
    let stacked := head_updates.filterMap fun h => lookupKey h key
    if stacked.isEmpty then mean_head_go head_updates ks
    else
      match getTensors stacked with
      | none => .error .typeError
      | some ds =>
        match stackMean ds with
        | none => .error .shapeMismatch
        | some mval =>
          match mean_head_go head_updates ks with
          | .ok r => .ok ((key, mval) :: r)
          | .error e => .error e

/-- Embedding of the controller's head aggregation
(aggregator.py:120-128): `aggregated_head = {}` stands when
`head_updates` is empty or the first client's head is empty; otherwise
the per-key loop runs over the first client's keys. No decryption takes
place anywhere in the controller. -/
noncomputable def mean_head {κ : Type} [DecidableEq κ]
    (head_updates : List (List (κ × HVal))) :
    Except HeadAggError (List (κ × List ℝ)) :=
  match head_updates with
  | [] => .ok []
  | h0 :: _ =>
    if h0.isEmpty then .ok []
    else mean_head_go head_updates (h0.map Prod.fst)

/-- Modelled from the spec (§4.7 step 4, for comparison with
`mean_head`): "decrypt each client's head (the server holds the secret
key), then compute the element-wise arithmetic mean into `mean_head`;
if `head_updates` is empty, `mean_head = ∅`". Decrypting ciphertext
bytes yields their payload. -/
def decryptHVal : HVal → List ℝ
  | .tensor d => d
  | .cipher p => p

/-- Modelled from the spec: the element-wise arithmetic mean of the
decrypted heads, one entry per key (clients share keys per §4.1). -/
noncomputable def mean_head_spec {κ : Type} [DecidableEq κ]
    (head_updates : List (List (κ × HVal))) : List (κ × List ℝ) :=
  match head_updates with
  | [] => []
  | h0 :: _ =>
    h0.map fun p =>
      (p.1, (vecSum (head_updates.filterMap fun h =>
        (lookupKey h p.1).map decryptHVal)).map
          fun x => x / (head_updates.length : ℝ))

/-- Embedding of `GeometricMedianAggregator.compute_distances`: flatten
the median along its own keys, then each client along the same keys,
and return the Euclidean distances in input order. -/
noncomputable def compute_distances {κ : Type} [DecidableEq κ]
    (client_updates : List (NamedTensorMap κ)) (median : NamedTensorMap κ) :
    Option (List ℝ) :=
  match flatten_state_dict median (mapKeys median) with
  | none => none
  | some mflat =>
    client_updates.mapM fun sd =>
      (flatten_state_dict sd (mapKeys median)).map fun cflat =>
        norm2 (vsub cflat mflat)

/-- Round statuses the controller writes. -/
inductive RoundStatus
  | in_progress
  | completed
  | failed
  deriving DecidableEq, Repr

/-- Database write performed by `GeomMedianController.control_flow`;
since `write_round` upserts by the unique `round_number`, the round
row's primary key is modelled by the round number itself. -/
inductive DBEffect
  | writeRound (round_number : ℕ) (status : RoundStatus) (num_clients : ℕ)
  | writeRoundMetric (round_id : ℕ) (weiszfeld_iterations : ℕ)
  | writeClientUpdate (round_id : ℕ) (client_name : ℕ) (distance : ℝ)
  | writeTrustScore (round_id : ℕ) (client_name : ℕ) (score : ℝ) (flagged : Bool)

/-- Round a database effect refers to. -/
def DBEffect.round : DBEffect → ℕ
  | .writeRound r _ _ => r
  | .writeRoundMetric r _ => r
  | .writeClientUpdate r _ _ => r
  | .writeTrustScore r _ _ _ => r

/-- Tests whether an effect is a `training_rounds` upsert (as opposed
to a metric, client-update or trust-score row). -/
def DBEffect.isRoundWrite : DBEffect → Bool
  | .writeRound _ _ _ => true
  | _ => false

/-- One client's task reply as the controller sees it: the return
code's OK flag, and the fields read out of the shareable. -/
structure Response (κ : Type) where
  ok : Bool
  client_name : ℕ
  body : NamedTensorMap κ
  head : List (κ × HVal)
  local_loss : ℝ
  local_auc : ℝ
  num_samples : ℕ

/-- Exceptions that escape a round's aggregate phase and abort
`control_flow` (anything but a quorum failure, which only marks the
round failed). -/
inductive RoundError
  | agg (e : AggError)
  | dist
  | headAgg (e : HeadAggError)
  deriving DecidableEq, Repr

/-- Embedding of one iteration of the round loop in
`GeomMedianController.control_flow` (aggregator.py:57-179), with the
database writer present: write the `in_progress` round row, collect
the OK responses, and either mark the round `failed` on a quorum miss
(continue-on-failure) or aggregate and persist the `completed` row, the
round metric, and per-client update and trust-score rows. -/
noncomputable def round_step {κ : Type} [DecidableEq κ] (min_clients : ℕ)
    (obj : AggregatorObj) (r : ℕ) (responses : List (Response κ)) :
    Except RoundError (List DBEffect × AggregatorObj) :=
  let collected := responses.filter fun cr => cr.ok
  let pre := [DBEffect.writeRound r .in_progress min_clients]
  if collected.length < min_clients then
    .ok (pre ++ [DBEffect.writeRound r .failed collected.length], obj)
  else
    match aggregate_obj obj (collected.map fun cr => cr.body) with
    | (.error e, _) => .error (.agg e)
    | (.ok med, obj2) =>
      match compute_distances (collected.map fun cr => cr.body) med with
      | none => .error .dist
      | some distances =>
        match mean_head (collected.map fun cr => cr.head) with
        | .error e => .error (.headAgg e)
        | .ok _mean_head =>
          .ok (pre ++
            [DBEffect.writeRound r .completed collected.length,
             DBEffect.writeRoundMetric r (weiszfeld_iters_persisted obj2)] ++
            ((collected.zip distances).flatMap fun p =>
              [DBEffect.writeClientUpdate r p.1.client_name p.2,
               DBEffect.writeTrustScore r p.1.client_name (1 / (1 + p.2))
                 (decide (1 / (1 + p.2) < 0.3))]), obj2)

/-- Round loop of `control_flow`: process the given round numbers in
order, threading the aggregator object; an exception aborts the loop,
everything else (including quorum failures) continues. -/
noncomputable def control_flow_rounds {κ : Type} [DecidableEq κ]
    (min_clients : ℕ) (obj : AggregatorObj)
    (responses : ℕ → List (Response κ)) :
    List ℕ → Except RoundError (List DBEffect)
  | [] => .ok []
  | r :: rest =>
    match round_step min_clients obj r (responses r) with
    | .error e => .error e
    | .ok (effs, obj2) =>
      match control_flow_rounds min_clients obj2 responses rest with
      | .ok tr => .ok (effs ++ tr)
      | .error e => .error e

/-- Embedding of `GeomMedianController.control_flow` (abort signal
never triggered): rounds `1 .. num_rounds` in order. -/
noncomputable def control_flow {κ : Type} [DecidableEq κ]
    (num_rounds min_clients : ℕ) (obj : AggregatorObj)
    (responses : ℕ → List (Response κ)) : Except RoundError (List DBEffect) :=
  control_flow_rounds min_clients obj responses (List.range' 1 num_rounds)

/-- Row of the `training_rounds` table as `DBWriter` writes it. -/
structure RoundRow where
  id : ℕ
  round_number : ℕ
  status : RoundStatus
  num_clients : ℕ
  job_id : Option ℕ
  global_loss : Option ℝ
  global_auc : Option ℝ
  started_at : Option ℕ
  completed_at : Option ℕ

/-- Arguments of a `DBWriter.write_round` call; the three mandatory
values plus the optional fields, which enter the values dict only when
not `None`. -/
structure WriteRoundArgs where
  round_number : ℕ
  job_id : Option ℕ
  status : RoundStatus
  num_clients : ℕ
  global_loss : Option ℝ
  global_auc : Option ℝ
  started_at : Option ℕ
  completed_at : Option ℕ

/-- UPDATE branch of `write_round`: set `round_number`, `status`,
`num_clients` and every optional field that was provided; keep the
row's id and its old values for omitted fields. -/
def updateRow (row : RoundRow) (a : WriteRoundArgs) : RoundRow :=
  ⟨row.id, a.round_number, a.status, a.num_clients,
    match a.job_id with | some j => some j | none => row.job_id,
    match a.global_loss with | some v => some v | none => row.global_loss,
    match a.global_auc with | some v => some v | none => row.global_auc,
    match a.started_at with | some v => some v | none => row.started_at,
    match a.completed_at with | some v => some v | none => row.completed_at⟩

/-- INSERT branch of `write_round`: a fresh row with the next primary
key; omitted optional fields are NULL. -/
def insertRow (idv : ℕ) (a : WriteRoundArgs) : RoundRow :=
  ⟨idv, a.round_number, a.status, a.num_clients, a.job_id,
    a.global_loss, a.global_auc, a.started_at, a.completed_at⟩

/-- Embedding of `DBWriter.write_round` (non-exceptional path) against
a table state `(rows, next primary key)`: SELECT the first row with the
given `round_number`; UPDATE it if present, else INSERT. Returns the
primary key together with the new table state. -/
def write_round (tbl : List RoundRow) (next_id : ℕ) (a : WriteRoundArgs) :
    Option ℕ × List RoundRow × ℕ :=
  match tbl.find? fun row => row.round_number = a.round_number with
  | some row =>
    (some row.id,
     tbl.map fun q => if q.id = row.id then updateRow q a else q,
     next_id)
  | none => (some next_id, tbl ++ [insertRow next_id a], next_id + 1)

/-- Consistency of the `training_rounds` table: primary keys distinct
and below the id counter, and `round_number` UNIQUE. -/
def RoundTableWF (tbl : List RoundRow) (next_id : ℕ) : Prop :=
  (tbl.map RoundRow.id).Nodup ∧ (tbl.map RoundRow.round_number).Nodup ∧
  ∀ r ∈ tbl, r.id < next_id

section FlattenRoundTrip

variable {κ : Type} [DecidableEq κ]

lemma flatten_state_dict_cons_of_not_mem (k : κ) (t : Tensor)
    (rest : NamedTensorMap κ) (keys : List κ) (hk : ∀ q ∈ keys, q ≠ k) :
    flatten_state_dict ((k, t) :: rest) keys = flatten_state_dict rest keys := by
  induction keys with
  | nil => rfl
  | cons q qs ih =>
    have hq : q ≠ k := hk q (List.mem_cons_self q qs)
    have hqs : ∀ x ∈ qs, x ≠ k := fun x hx => hk x (List.mem_cons_of_mem q hx)
    simp only [flatten_state_dict, lookupKey, if_neg hq, ih hqs]

lemma unflatten_flatten_aux (sd : NamedTensorMap κ)
    (hnd : (mapKeys sd).Nodup) (hwf : ∀ p ∈ sd, p.2.wf) :
    ∃ flat, flatten_state_dict sd (mapKeys sd) = some flat ∧
      unflatten_to_state_dict flat (mapKeys sd) (mapShapes sd) (mapNumels sd) =
        some sd := by
  induction sd with
  | nil => exact ⟨[], rfl, rfl⟩
  | cons p rest ih =>
    obtain ⟨k, t⟩ := p
    have hnd2 : (k :: rest.map Prod.fst).Nodup := by simpa [mapKeys] using hnd
    have hnd' : (mapKeys rest).Nodup := (List.nodup_cons.mp hnd2).2
    have hknot : k ∉ mapKeys rest := (List.nodup_cons.mp hnd2).1
    have hwf' : ∀ p ∈ rest, p.2.wf := fun p hp => hwf p (List.mem_cons_of_mem _ hp)
    obtain ⟨flat, hfl, hunf⟩ := ih hnd' hwf'
    have htwf : t.data.length = t.shape.prod := hwf (k, t) (List.mem_cons_self _ _)
    have hne : ∀ q ∈ mapKeys rest, q ≠ k := by
      intro q hq
      intro hqk
      exact hknot (hqk ▸ hq)
    have hstep : flatten_state_dict ((k, t) :: rest) (mapKeys rest) =
        flatten_state_dict rest (mapKeys rest) :=
      flatten_state_dict_cons_of_not_mem k t rest (mapKeys rest) hne
    have hstep' : flatten_state_dict ((k, t) :: rest) (List.map Prod.fst rest) =
        some flat := by
      rw [show (List.map Prod.fst rest) = mapKeys rest from rfl, hstep, hfl]
    refine ⟨t.data ++ flat, ?_, ?_⟩
    · simp [mapKeys, flatten_state_dict, lookupKey, hstep']
    · have hnumel : Tensor.numel t = t.shape.prod := rfl
      have htake : (t.data ++ flat).take t.numel = t.data := by
        rw [hnumel, ← htwf]
        exact List.take_left t.data flat
      have hdrop : (t.data ++ flat).drop t.numel = flat := by
        rw [hnumel, ← htwf]
        exact List.drop_left t.data flat
      simp only [mapKeys, mapShapes, mapNumels, List.map_cons,
        unflatten_to_state_dict, htake, hdrop, htwf]
      rw [show (rest.map Prod.fst : List κ) = mapKeys rest from rfl,
        show (rest.map fun p => p.2.shape) = mapShapes rest from rfl,
        show (rest.map fun p => p.2.numel) = mapNumels rest from rfl]
      simp only [if_pos trivial, hunf]

end FlattenRoundTrip

section WeiszfeldTriangle

lemma s2_sq : Real.sqrt 2 ^ 2 = 2 := Real.sq_sqrt (by norm_num)

lemma s2_pos : (0 : ℝ) < Real.sqrt 2 := Real.sqrt_pos.mpr (by norm_num)

lemma s2_gt_one : (1 : ℝ) < Real.sqrt 2 := by
  nlinarith [s2_sq, s2_pos]

lemma s3_sq : Real.sqrt 3 ^ 2 = 3 := Real.sq_sqrt (by norm_num)

lemma s3_pos : (0 : ℝ) < Real.sqrt 3 := Real.sqrt_pos.mpr (by norm_num)

lemma s3_gt : (1.732050 : ℝ) < Real.sqrt 3 := by
  nlinarith [s3_sq, s3_pos]

lemma s3_lt : Real.sqrt 3 < 1.732051 := by
  nlinarith [s3_sq, s3_pos]

lemma tstar_gt : (0.211324 : ℝ) < tstar := by
  unfold tstar
  have := s3_lt
  linarith

lemma tstar_lt : tstar < 0.211325 := by
  unfold tstar
  have := s3_gt
  linarith

lemma quad_pos (t : ℝ) : 0 < 2 * t ^ 2 - 2 * t + 1 := by
  nlinarith [sq_nonneg (2 * t - 1)]

lemma gfun_sq (t : ℝ) : gfun t ^ 2 = 2 * t ^ 2 - 2 * t + 1 :=
  Real.sq_sqrt (quad_pos t).le

lemma gfun_pos (t : ℝ) : 0 < gfun t := Real.sqrt_pos.mpr (quad_pos t)

lemma Qreg_gt {t : ℝ} (h : Qreg t) : 0.211324 < t := by
  obtain ⟨h1, h2⟩ := h
  by_contra hc
  push_neg at hc
  nlinarith [sq_nonneg (t - 0.211324)]

lemma tstar_lt_of_Qreg {t : ℝ} (h : Qreg t) : tstar < t := by
  obtain ⟨h1, h2⟩ := h
  unfold tstar
  nlinarith [s3_sq, s3_pos]

lemma dist_diag_0 {t : ℝ} (h0 : 0 ≤ t) :
    norm2 (vsub [t, t] [0, 0]) = Real.sqrt 2 * t := by
  unfold norm2 vsub
  simp only [List.zipWith, List.map, List.sum_cons, List.sum_nil]
  rw [show (t - 0) ^ 2 + ((t - 0) ^ 2 + 0) = 2 * t ^ 2 from by ring]
  rw [Real.sqrt_mul (by norm_num) (t ^ 2), Real.sqrt_sq h0]

lemma dist_diag_1 (t : ℝ) : norm2 (vsub [t, t] [1, 0]) = gfun t := by
  unfold norm2 vsub gfun
  simp only [List.zipWith, List.map, List.sum_cons, List.sum_nil]
  rw [show (t - 1) ^ 2 + ((t - 0) ^ 2 + 0) = 2 * t ^ 2 - 2 * t + 1 from by ring]

lemma dist_diag_2 (t : ℝ) : norm2 (vsub [t, t] [0, 1]) = gfun t := by
  unfold norm2 vsub gfun
  simp only [List.zipWith, List.map, List.sum_cons, List.sum_nil]
  rw [show (t - 0) ^ 2 + ((t - 1) ^ 2 + 0) = 2 * t ^ 2 - 2 * t + 1 from by ring]

lemma wStep_diag {t : ℝ} (h : Qreg t) : wStep pts3 [t, t] = [ffun t, ffun t] := by
  have ht : 0.211324 < t := Qreg_gt h
  have hd0 : (1e-12 : ℝ) < Real.sqrt 2 * t := by nlinarith [s2_gt_one]
  have hg2 := gfun_sq t
  have hgpos := gfun_pos t
  have hhalf : (1 / 2 : ℝ) ≤ gfun t ^ 2 := by
    rw [hg2]; nlinarith [sq_nonneg (2 * t - 1)]
  have hdg : (1e-12 : ℝ) < gfun t := by
    by_contra hc
    push_neg at hc
    have h1 : gfun t * gfun t ≤ (1e-12 : ℝ) * (1e-12 : ℝ) :=
      mul_le_mul hc hc hgpos.le (by norm_num)
    nlinarith [hhalf]
  unfold wStep pts3
  simp only [List.map, List.zipWith, List.sum_cons, List.sum_nil, vecSum]
  rw [dist_diag_0 (by linarith), dist_diag_1, dist_diag_2]
  rw [if_pos hd0, if_pos hdg]
  have hs2t : Real.sqrt 2 * t ≠ 0 := by positivity
  have hg : gfun t ≠ 0 := ne_of_gt hgpos
  have hden : gfun t + 2 * (Real.sqrt 2 * t) ≠ 0 := by positivity
  have htot : 1 / (Real.sqrt 2 * t) + (1 / gfun t + (1 / gfun t + 0)) ≠ 0 := by
    have h1 : 0 < 1 / (Real.sqrt 2 * t) := by positivity
    have h2 : 0 < 1 / gfun t := by positivity
    positivity
  unfold ffun
  congr 1
  · field_simp
    ring
  congr 1
  field_simp
  ring

lemma gfun_le_one {t : ℝ} (h0 : 0 ≤ t) (h1 : t ≤ 1) : gfun t ≤ 1 := by
  have hg2 := gfun_sq t
  have hgpos := gfun_pos t
  nlinarith [sq_nonneg (gfun t - 1), mul_nonneg h0 (by linarith : (0 : ℝ) ≤ 1 - t)]

lemma AB_eq (t : ℝ) :
    (gfun t - Real.sqrt 2 * (1 - 2 * t)) * (gfun t + Real.sqrt 2 * (1 - 2 * t)) =
      -(6 * t ^ 2 - 6 * t + 1) := by
  linear_combination gfun_sq t - (1 - 2 * t) ^ 2 * s2_sq

lemma DB_eq (t : ℝ) :
    (gfun t + 2 * (Real.sqrt 2 * t)) * (gfun t + Real.sqrt 2 * (1 - 2 * t)) =
      -6 * t ^ 2 + 2 * t + 1 + Real.sqrt 2 * gfun t := by
  linear_combination gfun_sq t + 2 * (t - 2 * t ^ 2) * s2_sq

lemma B_pos {t : ℝ} (h : Qreg t) :
    0 < gfun t + Real.sqrt 2 * (1 - 2 * t) := by
  have h1 := gfun_pos t
  have h2 : (0 : ℝ) ≤ Real.sqrt 2 * (1 - 2 * t) :=
    mul_nonneg s2_pos.le (by linarith [h.2])
  linarith

lemma A_pos {t : ℝ} (h : Qreg t) :
    0 < gfun t - Real.sqrt 2 * (1 - 2 * t) := by
  by_contra hc
  push_neg at hc
  have hB := B_pos h
  have hprod : (gfun t - Real.sqrt 2 * (1 - 2 * t)) *
      (gfun t + Real.sqrt 2 * (1 - 2 * t)) ≤ 0 :=
    mul_nonpos_of_nonpos_of_nonneg hc hB.le
  rw [AB_eq] at hprod
  linarith [h.1]

lemma D_pos {t : ℝ} (h : Qreg t) :
    0 < gfun t + 2 * (Real.sqrt 2 * t) := by
  have h1 := gfun_pos t
  have ht := Qreg_gt h
  have h2 : (0 : ℝ) < Real.sqrt 2 * t := mul_pos s2_pos (by linarith)
  linarith

lemma ffun_lt_self {t : ℝ} (h : Qreg t) : ffun t < t := by
  have ht : (0 : ℝ) < t := by linarith [Qreg_gt h]
  have hD := D_pos h
  have hA := A_pos h
  unfold ffun
  rw [div_lt_iff₀ hD]
  nlinarith [mul_pos ht hA]

lemma ffun_pos {t : ℝ} (h : Qreg t) : 0 < ffun t := by
  have ht : (0 : ℝ) < t := by linarith [Qreg_gt h]
  have hD := D_pos h
  unfold ffun
  positivity

lemma ffun_Qreg {t : ℝ} (h : Qreg t) : Qreg (ffun t) := by
  have ht : (0.211324 : ℝ) < t := Qreg_gt h
  have ht0 : (0 : ℝ) < t := by linarith
  have hD := D_pos h
  have hg2 := gfun_sq t
  have hgpos := gfun_pos t
  constructor
  · have hfac : 0 < (6 * t ^ 2 - 6 * t + 1) * (2 * t ^ 2 - 2 * t - 1) :=
      mul_pos_of_neg_of_neg h.1 (by nlinarith [h.2])
    have hsq : (2 * Real.sqrt 2 * t * gfun t) ^ 2 =
        8 * t ^ 2 * (2 * t ^ 2 - 2 * t + 1) := by
      rw [mul_pow, mul_pow, mul_pow, s2_sq, hg2]
      ring
    have hLpos : 0 < 2 * Real.sqrt 2 * t * gfun t :=
      mul_pos (mul_pos (mul_pos two_pos s2_pos) ht0) hgpos
    have hkey : 1 - 2 * t - 2 * t ^ 2 < 2 * Real.sqrt 2 * t * gfun t := by
      nlinarith [hfac, hsq, hLpos]
    have hN : 6 * (Real.sqrt 2 * t) ^ 2 -
        6 * (Real.sqrt 2 * t) * (gfun t + 2 * (Real.sqrt 2 * t)) +
        (gfun t + 2 * (Real.sqrt 2 * t)) ^ 2 =
        (1 - 2 * t - 2 * t ^ 2) - 2 * Real.sqrt 2 * t * gfun t := by
      linear_combination (-2 * t ^ 2) * s2_sq + gfun_sq t
    have hNneg : 6 * (Real.sqrt 2 * t) ^ 2 -
        6 * (Real.sqrt 2 * t) * (gfun t + 2 * (Real.sqrt 2 * t)) +
        (gfun t + 2 * (Real.sqrt 2 * t)) ^ 2 < 0 := by
      rw [hN]; linarith
    have hquot : 6 * (ffun t) ^ 2 - 6 * ffun t + 1 =
        (6 * (Real.sqrt 2 * t) ^ 2 -
          6 * (Real.sqrt 2 * t) * (gfun t + 2 * (Real.sqrt 2 * t)) +
          (gfun t + 2 * (Real.sqrt 2 * t)) ^ 2) /
        (gfun t + 2 * (Real.sqrt 2 * t)) ^ 2 := by
      unfold ffun
      field_simp
      ring
    rw [hquot]
    exact div_neg_of_neg_of_pos hNneg (by positivity)
  · have := ffun_lt_self h
    linarith [h.2]

lemma ffun_contract {t : ℝ} (h : Qreg t) :
    ffun t - tstar ≤ (22 / 25) * (t - tstar) := by
  have ht : (0.211324 : ℝ) < t := Qreg_gt h
  have ht0 : (0 : ℝ) < t := by linarith
  have hD := D_pos h
  have hB := B_pos h
  have hg2 := gfun_sq t
  have hgpos := gfun_pos t
  have hg_le_one : gfun t ≤ 1 := gfun_le_one ht0.le (by linarith [h.2])
  have hs2_ub : Real.sqrt 2 < 1.414214 := by nlinarith [s2_sq, s2_pos]
  have hs3_lb := s3_gt
  have hts : tstar < t := tstar_lt_of_Qreg h
  have hs2g_ub : Real.sqrt 2 * gfun t ≤ 1.414214 := by
    nlinarith [s2_pos, hgpos]
  -- key inequality: (3/25) * (D*B) ≤ 6 * t * ((3+√3)/6 - t)
  have hkey : (3 / 25) * (-6 * t ^ 2 + 2 * t + 1 + Real.sqrt 2 * gfun t) ≤
      6 * t * ((3 + Real.sqrt 3) / 6 - t) := by
    nlinarith [mul_nonneg (by linarith : (0:ℝ) ≤ t - 0.211324)
      (by linarith [h.2] : (0:ℝ) ≤ 1 / 3 - t), hs3_lb]
  -- multiply by (t - tstar) ≥ 0 and use the D*B identity
  have hmul : (3 / 25) * (t - tstar) *
      ((gfun t + 2 * (Real.sqrt 2 * t)) * (gfun t + Real.sqrt 2 * (1 - 2 * t))) ≤
      t * (-(6 * t ^ 2 - 6 * t + 1)) := by
    rw [DB_eq]
    have h6 : 6 * t * ((3 + Real.sqrt 3) / 6 - t) * (t - tstar) =
        t * (-(6 * t ^ 2 - 6 * t + 1)) := by
      unfold tstar
      linear_combination (t / 6) * s3_sq
    have hstep := mul_le_mul_of_nonneg_right hkey (by linarith : (0:ℝ) ≤ t - tstar)
    calc (3 / 25) * (t - tstar) *
        (-6 * t ^ 2 + 2 * t + 1 + Real.sqrt 2 * gfun t) =
        (3 / 25) * (-6 * t ^ 2 + 2 * t + 1 + Real.sqrt 2 * gfun t) * (t - tstar) := by
          ring
      _ ≤ 6 * t * ((3 + Real.sqrt 3) / 6 - t) * (t - tstar) := hstep
      _ = t * (-(6 * t ^ 2 - 6 * t + 1)) := h6
  -- cancel the positive factor B
  have hABe := AB_eq t
  have hcore : (3 / 25) * (t - tstar) * (gfun t + 2 * (Real.sqrt 2 * t)) ≤
      t * (gfun t - Real.sqrt 2 * (1 - 2 * t)) := by
    have hx : ((3 / 25) * (t - tstar) * (gfun t + 2 * (Real.sqrt 2 * t))) *
        (gfun t + Real.sqrt 2 * (1 - 2 * t)) ≤
        (t * (gfun t - Real.sqrt 2 * (1 - 2 * t))) *
        (gfun t + Real.sqrt 2 * (1 - 2 * t)) := by
      calc ((3 / 25) * (t - tstar) * (gfun t + 2 * (Real.sqrt 2 * t))) *
          (gfun t + Real.sqrt 2 * (1 - 2 * t)) =
          (3 / 25) * (t - tstar) *
          ((gfun t + 2 * (Real.sqrt 2 * t)) * (gfun t + Real.sqrt 2 * (1 - 2 * t))) := by
            ring
        _ ≤ t * (-(6 * t ^ 2 - 6 * t + 1)) := hmul
        _ = t * ((gfun t - Real.sqrt 2 * (1 - 2 * t)) *
            (gfun t + Real.sqrt 2 * (1 - 2 * t))) := by rw [hABe]
        _ = (t * (gfun t - Real.sqrt 2 * (1 - 2 * t))) *
            (gfun t + Real.sqrt 2 * (1 - 2 * t)) := by ring
    exact le_of_mul_le_mul_right hx hB
  -- conclude: ffun t ≤ tstar + (22/25)(t - tstar)
  have hgoal : Real.sqrt 2 * t ≤
      (tstar + (22 / 25) * (t - tstar)) * (gfun t + 2 * (Real.sqrt 2 * t)) := by
    nlinarith [hcore]
  have hfin : Real.sqrt 2 * t / (gfun t + 2 * (Real.sqrt 2 * t)) ≤
      tstar + 22 / 25 * (t - tstar) := (div_le_iff₀ hD).mpr hgoal
  unfold ffun
  linarith

lemma ffun_far {t : ℝ} (h : Qreg t) (hf : 0.2212 < ffun t) :
    1e-5 < t - ffun t := by
  have ht2212 : (0.2212 : ℝ) < t := lt_trans hf (ffun_lt_self h)
  have hD := D_pos h
  have hB := B_pos h
  have hg2 := gfun_sq t
  have hgpos := gfun_pos t
  have hg_le_one : gfun t ≤ 1 :=
    gfun_le_one (by linarith) (by linarith [h.2])
  have hs2_ub : Real.sqrt 2 < 1.414214 := by nlinarith [s2_sq, s2_pos]
  have hs2g_ub : Real.sqrt 2 * gfun t ≤ 1.414214 := by
    nlinarith [s2_pos, hgpos]
  -- (t - ffun t) * (D * B) = t * (-(6t² - 6t + 1))
  have hid : (t - ffun t) *
      ((gfun t + 2 * (Real.sqrt 2 * t)) * (gfun t + Real.sqrt 2 * (1 - 2 * t))) =
      t * (-(6 * t ^ 2 - 6 * t + 1)) := by
    have h1 : (t - ffun t) * (gfun t + 2 * (Real.sqrt 2 * t)) =
        t * (gfun t - Real.sqrt 2 * (1 - 2 * t)) := by
      unfold ffun
      field_simp
      ring
    calc (t - ffun t) *
        ((gfun t + 2 * (Real.sqrt 2 * t)) * (gfun t + Real.sqrt 2 * (1 - 2 * t))) =
        ((t - ffun t) * (gfun t + 2 * (Real.sqrt 2 * t))) *
        (gfun t + Real.sqrt 2 * (1 - 2 * t)) := by ring
      _ = (t * (gfun t - Real.sqrt 2 * (1 - 2 * t))) *
          (gfun t + Real.sqrt 2 * (1 - 2 * t)) := by rw [h1]
      _ = t * ((gfun t - Real.sqrt 2 * (1 - 2 * t)) *
          (gfun t + Real.sqrt 2 * (1 - 2 * t))) := by ring
      _ = t * (-(6 * t ^ 2 - 6 * t + 1)) := by rw [AB_eq]
  -- numeric lower bound for the right-hand side
  have hX : (0.033 : ℝ) ≤ -(6 * t ^ 2 - 6 * t + 1) := by
    nlinarith [mul_nonneg (by linarith : (0:ℝ) ≤ t - 0.2212)
      (by linarith [h.2] : (0:ℝ) ≤ 1 / 3 - t)]
  have hrhs : (0.0073 : ℝ) ≤ t * (-(6 * t ^ 2 - 6 * t + 1)) := by
    nlinarith [hX]
  -- numeric upper bound for D * B
  have hDB : (gfun t + 2 * (Real.sqrt 2 * t)) * (gfun t + Real.sqrt 2 * (1 - 2 * t)) ≤
      2.581 := by
    rw [DB_eq]
    nlinarith [hs2g_ub]
  have hDBpos : 0 < (gfun t + 2 * (Real.sqrt 2 * t)) *
      (gfun t + Real.sqrt 2 * (1 - 2 * t)) := mul_pos hD hB
  nlinarith [hid, hrhs, hDB, hDBpos]

lemma shift_diag {t : ℝ} (hle : ffun t ≤ t) :
    norm2 (vsub [ffun t, ffun t] [t, t]) = Real.sqrt 2 * (t - ffun t) := by
  unfold norm2 vsub
  simp only [List.zipWith, List.map, List.sum_cons, List.sum_nil]
  rw [show (ffun t - t) ^ 2 + ((ffun t - t) ^ 2 + 0) = 2 * (t - ffun t) ^ 2
    from by ring]
  rw [Real.sqrt_mul (by norm_num) ((t - ffun t) ^ 2),
    Real.sqrt_sq (by linarith)]

lemma weiszfeldAux_diag : ∀ (fuel : ℕ) (t : ℝ), Qreg t →
    ∃ r k, weiszfeldAux pts3 1e-5 100 fuel [t, t] = ([r, r], k) ∧ Qreg r ∧
      (r ≤ 0.2212 ∨ r - tstar ≤ (22 / 25) ^ fuel * (t - tstar)) := by
  intro fuel
  induction fuel with
  | zero =>
    intro t ht
    refine ⟨t, 100, rfl, ht, Or.inr ?_⟩
    simp
  | succ fuel ih =>
    intro t ht
    have hflt := ffun_lt_self ht
    have hQf := ffun_Qreg ht
    simp only [weiszfeldAux]
    rw [wStep_diag ht, shift_diag hflt.le]
    by_cases hsh : Real.sqrt 2 * (t - ffun t) < 1e-5
    · rw [if_pos hsh]
      refine ⟨ffun t, 100 - fuel, rfl, hQf, Or.inl ?_⟩
      by_contra hgt
      push_neg at hgt
      have hfar := ffun_far ht hgt
      have hge : Real.sqrt 2 * (t - ffun t) ≥ 1 * (t - ffun t) := by
        have h1 : (0 : ℝ) ≤ t - ffun t := by linarith
        nlinarith [s2_gt_one]
      linarith
    · rw [if_neg hsh]
      obtain ⟨r, k, heq, hQr, hb⟩ := ih (ffun t) hQf
      refine ⟨r, k, heq, hQr, ?_⟩
      rcases hb with hb | hb
      · exact Or.inl hb
      · right
        have hc := ffun_contract ht
        have hpow : (0 : ℝ) ≤ (22 / 25) ^ fuel := by positivity
        calc r - tstar ≤ (22 / 25) ^ fuel * (ffun t - tstar) := hb
          _ ≤ (22 / 25) ^ fuel * ((22 / 25) * (t - tstar)) :=
            mul_le_mul_of_nonneg_left hc hpow
          _ = (22 / 25) ^ (fuel + 1) * (t - tstar) := by ring

lemma Qreg_third : Qreg (1 / 3) := by
  constructor <;> norm_num

lemma weiszfeld_pts3 : weiszfeld ⟨100, 1e-5⟩ pts3 =
    weiszfeldAux pts3 1e-5 100 100 [1 / 3, 1 / 3] := by
  unfold weiszfeld
  have hmean : ((vecSum pts3).map fun x => x / ((pts3.length : ℕ) : ℝ)) =
      [(1 : ℝ) / 3, 1 / 3] := by
    simp only [pts3, vecSum, List.zipWith, List.length, List.map]
    norm_num
  rw [hmean]

lemma weiszfeld_run :
    ∃ r k, weiszfeldAux pts3 1e-5 100 100 [1 / 3, 1 / 3] = ([r, r], k) ∧
      0.2113 < r ∧ r ≤ 0.2212 := by
  obtain ⟨r, k, heq, hQr, hb⟩ := weiszfeldAux_diag 100 (1 / 3) Qreg_third
  refine ⟨r, k, heq, by linarith [Qreg_gt hQr], ?_⟩
  rcases hb with hb | hb
  · exact hb
  · have hpow : ((22 : ℝ) / 25) ^ 100 ≤ (22 / 25) ^ 20 :=
      pow_le_pow_of_le_one (by norm_num) (by norm_num) (by norm_num)
    have h20 : ((22 : ℝ) / 25) ^ 20 ≤ 0.0776 := by norm_num
    have hts_ub := tstar_lt
    have hts_lb := tstar_gt
    have hpos : (0 : ℝ) ≤ ((22 : ℝ) / 25) ^ 100 := by positivity
    have hmul : ((22 : ℝ) / 25) ^ 100 * (1 / 3 - tstar) ≤ 0.0776 * 0.12201 := by
      apply mul_le_mul (le_trans hpow h20) (by linarith) (by linarith) (by norm_num)
    nlinarith [hb, hmul]

lemma weiszfeldAux_snd_ge_one (pts : List (List ℝ)) (eps : ℝ) (maxIter : ℕ)
    (h1 : 1 ≤ maxIter) : ∀ (fuel : ℕ) (y : List ℝ), fuel ≤ maxIter →
    1 ≤ (weiszfeldAux pts eps maxIter fuel y).2 := by
  intro fuel
  induction fuel with
  | zero =>
    intro y _
    simpa [weiszfeldAux] using h1
  | succ fuel ih =>
    intro y hf
    simp only [weiszfeldAux]
    by_cases hc : norm2 (vsub (wStep pts y) y) < eps
    · rw [if_pos hc]
      simp only
      omega
    · rw [if_neg hc]
      exact ih (wStep pts y) (by omega)

lemma aggregate_updates3 {r : ℝ} {k : ℕ}
    (hw : weiszfeldAux pts3 1e-5 100 100 [1 / 3, 1 / 3] = ([r, r], k)) :
    aggregate ⟨100, 1e-5⟩ updates3 = Except.ok [(0, ⟨[2], [r, r]⟩)] := by
  have hw2 : weiszfeld ⟨100, 1e-5⟩ [[0, 0], [1, 0], [0, 1]] = ([r, r], k) := by
    rw [show ([[0, 0], [1, 0], [0, 1]] : List (List ℝ)) = pts3 from rfl,
      weiszfeld_pts3]
    exact hw
  simp only [aggregate, updates3]
  rw [show (List.mapM (fun sd => flatten_state_dict sd
      (mapKeys [((0 : ℕ), Tensor.mk [2] [0, 0])]))
      [[((0 : ℕ), Tensor.mk [2] [0, 0])], [(0, Tensor.mk [2] [1, 0])],
        [(0, Tensor.mk [2] [0, 1])]]) =
      some [[0, 0], [1, 0], [0, 1]] from rfl]
  simp only [mapKeys, mapShapes, mapNumels, Tensor.numel, List.map]
  rw [if_pos]
  · rw [hw2]
    exact rfl
  · exact rfl

end WeiszfeldTriangle

section NumericBounds

lemma pow_cmp_lower : (2 : ℝ) ^ (16927 : ℕ) < 125000 ^ (1000 : ℕ) := by
  have h : (2 : ℕ) ^ 16927 < 125000 ^ 1000 := by norm_num
  calc (2 : ℝ) ^ (16927 : ℕ) = ((2 ^ 16927 : ℕ) : ℝ) := by push_cast; ring
  _ < ((125000 ^ 1000 : ℕ) : ℝ) := by exact_mod_cast h
  _ = (125000 : ℝ) ^ (1000 : ℕ) := by push_cast; ring

lemma pow_cmp_upper : (125000 : ℝ) ^ (1000 : ℕ) < 2 ^ (16936 : ℕ) := by
  have h : (125000 : ℕ) ^ 1000 < 2 ^ 16936 := by norm_num
  calc (125000 : ℝ) ^ (1000 : ℕ) = ((125000 ^ 1000 : ℕ) : ℝ) := by push_cast; ring
  _ < ((2 ^ 16936 : ℕ) : ℝ) := by exact_mod_cast h
  _ = (2 : ℝ) ^ (16936 : ℕ) := by push_cast; ring

lemma log_125000_gt : (11.7329 : ℝ) < Real.log 125000 := by
  have h1 : Real.log ((2 : ℝ) ^ (16927 : ℕ)) <
      Real.log ((125000 : ℝ) ^ (1000 : ℕ)) :=
    Real.log_lt_log (by positivity) pow_cmp_lower
  rw [Real.log_pow, Real.log_pow] at h1
  have h2 := Real.log_two_gt_d9
  push_cast at h1
  nlinarith

lemma log_125000_lt : Real.log 125000 < 11.73915 := by
  have h1 : Real.log ((125000 : ℝ) ^ (1000 : ℕ)) <
      Real.log ((2 : ℝ) ^ (16936 : ℕ)) :=
    Real.log_lt_log (by positivity) pow_cmp_upper
  rw [Real.log_pow, Real.log_pow] at h1
  have h2 := Real.log_two_lt_d9
  push_cast at h1
  nlinarith

lemma compute_sigma_default_eq :
    compute_sigma 1 (1 / 100000) 1 = Real.sqrt (2 * Real.log 125000) := by
  unfold compute_sigma
  norm_num

lemma sigma_default_gt : (4.844 : ℝ) < Real.sqrt (2 * Real.log 125000) := by
  have h := log_125000_gt
  rw [show (4.844 : ℝ) = Real.sqrt (4.844 ^ 2) from
    (Real.sqrt_sq (by norm_num)).symm]
  apply Real.sqrt_lt_sqrt (by norm_num)
  nlinarith

lemma sigma_default_lt : Real.sqrt (2 * Real.log 125000) < 4.846 := by
  have h := log_125000_lt
  rw [Real.sqrt_lt' (by norm_num)]
  nlinarith

/-- Shared helper: `DPNoise.__init__` on valid `(epsilon, delta)` succeeds
for every `sensitivity` and `max_grad_norm`, storing `sigma` from the
calibration formula. -/
lemma dpnoise_init_eq_ok (epsilon delta sensitivity max_grad_norm : ℝ)
    (heps : 0 < epsilon) (hd0 : 0 < delta) (hd1 : delta < 1) :
    dpnoise_init epsilon delta sensitivity max_grad_norm =
      Except.ok ⟨epsilon, delta, sensitivity, max_grad_norm,
        compute_sigma epsilon delta sensitivity⟩ := by
  unfold dpnoise_init
  rw [if_neg (not_le.mpr heps), if_neg]
  push_neg
  exact ⟨hd0, hd1⟩

end NumericBounds

section RoundingMonotone

lemma roundHalfEven_le_floor_add_one (x : ℝ) : roundHalfEven x ≤ ⌊x⌋ + 1 := by
  unfold roundHalfEven
  split_ifs <;> omega

lemma floor_le_roundHalfEven (x : ℝ) : ⌊x⌋ ≤ roundHalfEven x := by
  unfold roundHalfEven
  split_ifs <;> omega

lemma roundHalfEven_mono {x y : ℝ} (h : x ≤ y) :
    roundHalfEven x ≤ roundHalfEven y := by
  have hf : ⌊x⌋ ≤ ⌊y⌋ := Int.floor_mono h
  by_cases heq : ⌊x⌋ = ⌊y⌋
  · have hfr : Int.fract x ≤ Int.fract y := by
      have hx : Int.fract x = x - ⌊x⌋ := rfl
      have hy : Int.fract y = y - ⌊y⌋ := rfl
      rw [hx, hy, heq]
      linarith
    unfold roundHalfEven
    rw [heq]
    split_ifs <;> first
      | omega
      | (exfalso; linarith)
  · have hlt : ⌊x⌋ < ⌊y⌋ := lt_of_le_of_ne hf heq
    have h1 := roundHalfEven_le_floor_add_one x
    have h2 := floor_le_roundHalfEven y
    omega

lemma pyRound_mono {x y : ℝ} (n : ℕ) (h : x ≤ y) : pyRound x n ≤ pyRound y n := by
  unfold pyRound
  have hm : roundHalfEven (x * 10 ^ n) ≤ roundHalfEven (y * 10 ^ n) :=
    roundHalfEven_mono (by
      have hp : (0 : ℝ) < 10 ^ n := by positivity
      nlinarith)
  have hc : ((roundHalfEven (x * 10 ^ n) : ℤ) : ℝ) ≤
      ((roundHalfEven (y * 10 ^ n) : ℤ) : ℝ) := by exact_mod_cast hm
  have hp : (0 : ℝ) < 10 ^ n := by positivity
  exact div_le_div_of_nonneg_right hc hp.le

lemma eps_total_raw_mono (eps delta : ℝ) {T T' : ℕ}
    (heps : 0 < eps) (hd0 : 0 < delta) (hd1 : delta < 1) (hT : T ≤ T') :
    eps_total_raw eps delta T ≤ eps_total_raw eps delta T' := by
  have hL : 0 < Real.log (1 / delta) := by
    apply Real.log_pos
    rw [lt_div_iff₀ hd0]
    linarith
  have hTc : (T : ℝ) ≤ (T' : ℝ) := Nat.cast_le.mpr hT
  have hexp : (0 : ℝ) ≤ Real.exp eps - 1 := by
    have := Real.one_le_exp heps.le
    linarith
  unfold eps_total_raw
  have h1 : eps * Real.sqrt (2 * (T : ℝ) * Real.log (1 / delta)) ≤
      eps * Real.sqrt (2 * (T' : ℝ) * Real.log (1 / delta)) := by
    apply mul_le_mul_of_nonneg_left _ heps.le
    apply Real.sqrt_le_sqrt
    nlinarith
  have h2 : (T : ℝ) * eps * (Real.exp eps - 1) ≤
      (T' : ℝ) * eps * (Real.exp eps - 1) := by
    apply mul_le_mul_of_nonneg_right _ hexp
    exact mul_le_mul_of_nonneg_right hTc heps.le
  linarith

end RoundingMonotone

/-- C5: for every named-tensor map of well-formed tensors with distinct
keys, unflattening the flattened 1-D vector along the map's own key
list, shapes and element counts reproduces the map exactly — same keys
in the same order, same shapes, equal element values. -/
theorem unflatten_flatten_id {κ : Type} [DecidableEq κ] (sd : NamedTensorMap κ)
    (hnd : (mapKeys sd).Nodup) (hwf : ∀ p ∈ sd, p.2.wf) :
    ∃ flat, flatten_state_dict sd (mapKeys sd) = some flat ∧
      unflatten_to_state_dict flat (mapKeys sd) (mapShapes sd) (mapNumels sd) =
        some sd :=
  unflatten_flatten_aux sd hnd hwf

/-- Concrete instance of the flatten/unflatten round trip on a two-key
map with a vector and a matrix tensor. -/
theorem unflatten_flatten_id_witness :
    ∃ flat,
      flatten_state_dict
        [((0 : ℕ), Tensor.mk [2] [1, 2]), (1, Tensor.mk [2, 1] [3, 4])]
        (mapKeys [((0 : ℕ), Tensor.mk [2] [1, 2]), (1, Tensor.mk [2, 1] [3, 4])]) =
        some flat ∧
      unflatten_to_state_dict flat
        (mapKeys [((0 : ℕ), Tensor.mk [2] [1, 2]), (1, Tensor.mk [2, 1] [3, 4])])
        (mapShapes [((0 : ℕ), Tensor.mk [2] [1, 2]), (1, Tensor.mk [2, 1] [3, 4])])
        (mapNumels [((0 : ℕ), Tensor.mk [2] [1, 2]), (1, Tensor.mk [2, 1] [3, 4])]) =
        some [((0 : ℕ), Tensor.mk [2] [1, 2]), (1, Tensor.mk [2, 1] [3, 4])] :=
  unflatten_flatten_id _
    (by simp [mapKeys])
    (by
      intro p hp
      simp only [List.mem_cons, List.not_mem_nil, or_false] at hp
      rcases hp with h | h <;> subst h <;> simp [Tensor.wf])

/-- C10: `DPNoise.__init__` validates only `epsilon` and `delta`; for
every value of `sensitivity` and `max_grad_norm` — zero and negatives
included — construction succeeds, storing `sigma` from the calibration
formula (which may then be zero or negative). -/
theorem dpnoise_init_ignores_sensitivity
    (epsilon delta sensitivity max_grad_norm : ℝ)
    (heps : 0 < epsilon) (hd0 : 0 < delta) (hd1 : delta < 1) :
    dpnoise_init epsilon delta sensitivity max_grad_norm =
      Except.ok ⟨epsilon, delta, sensitivity, max_grad_norm,
        compute_sigma epsilon delta sensitivity⟩ :=
  dpnoise_init_eq_ok epsilon delta sensitivity max_grad_norm heps hd0 hd1

/-- Concrete instance: construction succeeds with a negative
`sensitivity` and a zero `max_grad_norm`. -/
theorem dpnoise_init_ignores_sensitivity_witness :
    dpnoise_init 1 (1 / 2) (-1) 0 =
      Except.ok ⟨1, 1 / 2, -1, 0, compute_sigma 1 (1 / 2) (-1)⟩ :=
  dpnoise_init_ignores_sensitivity 1 (1 / 2) (-1) 0
    (by norm_num) (by norm_num) (by norm_num)

/-- C3, counterexample: with `epsilon = 1`, `delta = 1e-5`,
`sensitivity = 1` the stored `sigma` equals
`sqrt(2 * ln(1.25/delta)) = sqrt(2 * ln 125000) ≈ 4.8446`, which is NOT
within `1e-3` of `4.823`. -/
theorem dp_sigma_default_not_4823 :
    dpnoise_init 1 (1 / 100000) 1 1 =
      Except.ok ⟨1, 1 / 100000, 1, 1, compute_sigma 1 (1 / 100000) 1⟩ ∧
    ¬ (|compute_sigma 1 (1 / 100000) 1 - 4.823| ≤ 1 / 1000) := by
  constructor
  · exact dpnoise_init_eq_ok 1 (1 / 100000) 1 1
      (by norm_num) (by norm_num) (by norm_num)
  · rw [compute_sigma_default_eq]
    have h := sigma_default_gt
    intro habs
    have h2 := abs_le.mp habs
    have h3 := h2.2
    norm_num at h3
    linarith

/-- C3, amended: a `DPNoise` constructed with `epsilon=1.0`,
`delta=1e-5`, `sensitivity=1.0` has its noise scale fixed at
construction to `sigma = sensitivity * sqrt(2 * ln(1.25/delta)) / epsilon`,
and this value is within `1e-3` of `4.845` (not of `4.823`). -/
theorem dp_sigma_default_approx :
    dpnoise_init 1 (1 / 100000) 1 1 =
      Except.ok ⟨1, 1 / 100000, 1, 1, compute_sigma 1 (1 / 100000) 1⟩ ∧
    |compute_sigma 1 (1 / 100000) 1 - 4.845| ≤ 1 / 1000 := by
  constructor
  · exact dpnoise_init_eq_ok 1 (1 / 100000) 1 1
      (by norm_num) (by norm_num) (by norm_num)
  · rw [compute_sigma_default_eq]
    have h1 := sigma_default_gt
    have h2 := sigma_default_lt
    rw [abs_le]
    constructor <;> linarith

section HeadMean

variable {κ : Type} [DecidableEq κ]

lemma getTensors_map_tensor (ds : List (List ℝ)) :
    getTensors (ds.map HVal.tensor) = some ds := by
  induction ds with
  | nil => rfl
  | cons d ds ih => simp [getTensors, ih]

lemma filterMap_lookup_all_tensor (k : κ) (L : ℕ)
    (u : List (List (κ × HVal)))
    (hall : ∀ h ∈ u, ∃ d : List ℝ,
      lookupKey h k = some (HVal.tensor d) ∧ d.length = L) :
    (u.filterMap fun h => lookupKey h k) =
      (u.filterMap fun h => (lookupKey h k).bind HVal.getData).map HVal.tensor ∧
    (u.filterMap fun h => (lookupKey h k).bind HVal.getData).length = u.length ∧
    ∀ d ∈ u.filterMap fun h => (lookupKey h k).bind HVal.getData,
      d.length = L := by
  induction u with
  | nil =>
    refine ⟨rfl, rfl, ?_⟩
    intro d hd
    exact absurd hd (List.not_mem_nil d)
  | cons h u ih =>
    obtain ⟨d, hlk, hdL⟩ := hall h (List.mem_cons_self _ _)
    obtain ⟨ih1, ih2, ih3⟩ := ih fun g hg => hall g (List.mem_cons_of_mem _ hg)
    refine ⟨?_, ?_, ?_⟩
    · simp [List.filterMap_cons, hlk, HVal.getData, ih1]
    · simp only [List.filterMap_cons, hlk, Option.some_bind, HVal.getData,
        List.length_cons]
      exact congrArg (fun n => n + 1) ih2
    · intro x hx
      simp only [List.filterMap_cons, hlk, HVal.getData, Option.some_bind,
        List.mem_cons] at hx
      rcases hx with hx | hx
      · rw [hx]
        exact hdL
      · exact ih3 x hx

lemma mean_head_go_plain (updates : List (List (κ × HVal)))
    (hne : updates ≠ []) : ∀ ks : List κ,
    (∀ k ∈ ks, ∃ L : ℕ, ∀ h ∈ updates, ∃ d : List ℝ,
      lookupKey h k = some (HVal.tensor d) ∧ d.length = L) →
    mean_head_go updates ks = Except.ok (ks.map fun k =>
      (k, (vecSum (updates.filterMap fun h =>
        (lookupKey h k).bind HVal.getData)).map fun x =>
          x / ((updates.filterMap fun h =>
            (lookupKey h k).bind HVal.getData).length : ℝ))) := by
  intro ks
  induction ks with
  | nil =>
    intro _
    rfl
  | cons k ks ih =>
    intro hall
    obtain ⟨L, hL⟩ := hall k (List.mem_cons_self _ _)
    obtain ⟨heq, hlen, hLen⟩ := filterMap_lookup_all_tensor k L updates hL
    have hdsne : (updates.filterMap fun h => (lookupKey h k).bind HVal.getData) ≠ [] := by
      intro hnil
      rw [hnil] at hlen
      exact hne (List.length_eq_zero.mp hlen.symm)
    obtain ⟨d0, ds', hcons⟩ := List.exists_cons_of_ne_nil hdsne
    have hrest := ih fun q hq => hall q (List.mem_cons_of_mem _ hq)
    have hd0L : d0.length = L := hLen d0 (by rw [hcons]; exact List.mem_cons_self _ _)
    have hcond : (ds'.all fun w => w.length = d0.length) = true := by
      rw [List.all_eq_true]
      intro w hw
      have hwL : w.length = L := hLen w (by rw [hcons]; exact List.mem_cons_of_mem _ hw)
      simp [hwL, hd0L]
    have hsm : stackMean (d0 :: ds') =
        some ((vecSum (d0 :: ds')).map fun x => x / ((d0 :: ds').length : ℝ)) := by
      simp only [stackMean]
      rw [if_pos hcond]
    simp only [mean_head_go]
    rw [heq, hcons]
    simp only [List.map_cons, List.isEmpty_cons, Bool.false_eq_true, if_false]
    rw [show (HVal.tensor d0 :: ds'.map HVal.tensor) = (d0 :: ds').map HVal.tensor
      from rfl]
    rw [getTensors_map_tensor]
    simp only [hsm, hrest]
    rw [← hcons]

end HeadMean

section WriteRound

lemma find?_congr_pred {α : Type} (p q : α → Bool) (l : List α)
    (h : ∀ x, p x = q x) : l.find? p = l.find? q := by
  have hpq : p = q := funext h
  rw [hpq]

lemma find?_map_pres {α : Type} (f : α → α) (p : α → Bool) (l : List α)
    (hp : ∀ x ∈ l, p (f x) = p x) :
    (l.map f).find? p = (l.find? p).map f := by
  induction l with
  | nil => rfl
  | cons a l ih =>
    have ha := hp a (List.mem_cons_self a l)
    by_cases hpa : p a = true
    · rw [List.map_cons, List.find?_cons_of_pos _ (ha.trans hpa),
        List.find?_cons_of_pos _ hpa]
      rfl
    · rw [List.map_cons,
        List.find?_cons_of_neg _ (by rw [ha]; simpa using hpa),
        List.find?_cons_of_neg _ (by simpa using hpa)]
      exact ih fun x hx => hp x (List.mem_cons_of_mem a hx)

lemma filter_map_pres {α : Type} (f : α → α) (p : α → Bool) (l : List α)
    (hp : ∀ x ∈ l, p (f x) = p x) :
    (l.map f).filter p = (l.filter p).map f := by
  induction l with
  | nil => rfl
  | cons a l ih =>
    have ha := hp a (List.mem_cons_self a l)
    have ihl := ih fun x hx => hp x (List.mem_cons_of_mem a hx)
    by_cases hpa : p a = true
    · rw [List.map_cons, List.filter_cons_of_pos (ha.trans hpa),
        List.filter_cons_of_pos hpa, List.map_cons, ihl]
    · rw [List.map_cons,
        List.filter_cons_of_neg (by rw [ha]; simpa using hpa),
        List.filter_cons_of_neg (by simpa using hpa), ihl]

lemma find?_append_of_none {α : Type} (p : α → Bool) (l1 l2 : List α)
    (h : l1.find? p = none) : (l1 ++ l2).find? p = l2.find? p := by
  induction l1 with
  | nil => rfl
  | cons a l1 ih =>
    have hall := List.find?_eq_none.mp h
    have hpa : ¬ p a = true := hall a (List.mem_cons_self a l1)
    have htail : l1.find? p = none :=
      List.find?_eq_none.mpr fun x hx => hall x (List.mem_cons_of_mem a hx)
    rw [List.cons_append, List.find?_cons_of_neg _ (by simpa using hpa), ih htail]

lemma filter_key_length_one {α β : Type} [DecidableEq β] (g : α → β)
    (l : List α) (hnd : (l.map g).Nodup) (x : α) (hx : x ∈ l) :
    (l.filter fun y => g y = g x).length = 1 := by
  induction l with
  | nil => exact absurd hx (List.not_mem_nil x)
  | cons a l ih =>
    rw [List.map_cons, List.nodup_cons] at hnd
    rcases List.mem_cons.mp hx with heq | hx2
    · rw [List.filter_cons_of_pos (by simp [heq])]
      have hnil : (l.filter fun y => g y = g x) = [] := by
        rw [List.filter_eq_nil_iff]
        intro b hb
        simp only [decide_eq_true_eq]
        intro hgb
        refine absurd ?_ hnd.1
        rw [← heq, ← hgb]
        exact List.mem_map_of_mem g hb
      rw [hnil]
      rfl
    · have hga : ¬ (g a = g x) := by
        intro hcontra
        exact hnd.1 (hcontra ▸ List.mem_map_of_mem g hx2)
      rw [List.filter_cons_of_neg (by simpa using hga)]
      exact ih hnd.2 hx2

end WriteRound

section ControlFlow

variable {κ : Type} [DecidableEq κ]

lemma round_step_quorum_failure (min_clients : ℕ) (obj : AggregatorObj)
    (r : ℕ) (responses : List (Response κ))
    (hq : (responses.filter fun cr => cr.ok).length < min_clients) :
    round_step min_clients obj r responses =
      Except.ok ([DBEffect.writeRound r RoundStatus.in_progress min_clients,
        DBEffect.writeRound r RoundStatus.failed
          (responses.filter fun cr => cr.ok).length], obj) := by
  simp only [round_step]
  rw [if_pos hq]
  rfl

lemma round_step_tags (min_clients : ℕ) (obj : AggregatorObj) (r : ℕ)
    (responses : List (Response κ)) (effs : List DBEffect)
    (obj2 : AggregatorObj)
    (h : round_step min_clients obj r responses = Except.ok (effs, obj2)) :
    ∀ e ∈ effs, DBEffect.round e = r := by
  intro e he
  simp only [round_step] at h
  split at h
  · simp only [Except.ok.injEq, Prod.mk.injEq] at h
    rw [← h.1] at he
    simp only [List.mem_append, List.mem_cons, List.not_mem_nil, or_false] at he
    rcases he with rfl | rfl <;> rfl
  · split at h
    · exact absurd h (by simp)
    · split at h
      · exact absurd h (by simp)
      · split at h
        · exact absurd h (by simp)
        · simp only [Except.ok.injEq, Prod.mk.injEq] at h
          rw [← h.1] at he
          rcases List.mem_append.mp he with he1 | he2
          · rcases List.mem_append.mp he1 with ha | hb
            · simp only [List.mem_cons, List.not_mem_nil, or_false] at ha
              rw [ha]
              rfl
            · simp only [List.mem_cons, List.not_mem_nil, or_false] at hb
              rcases hb with hb | hb <;> rw [hb] <;> rfl
          · obtain ⟨p, hpm, hp⟩ := List.mem_flatMap.mp he2
            simp only [List.mem_cons, List.not_mem_nil, or_false] at hp
            rcases hp with hp | hp <;> rw [hp] <;> rfl

lemma control_flow_rounds_tags (min_clients : ℕ)
    (responses : ℕ → List (Response κ)) :
    ∀ (rounds : List ℕ) (obj : AggregatorObj) (tr : List DBEffect),
    control_flow_rounds min_clients obj responses rounds = Except.ok tr →
    ∀ e ∈ tr, DBEffect.round e ∈ rounds := by
  intro rounds
  induction rounds with
  | nil =>
    intro obj tr htr e he
    simp only [control_flow_rounds, Except.ok.injEq] at htr
    rw [← htr] at he
    exact absurd he (List.not_mem_nil e)
  | cons r rest ih =>
    intro obj tr htr e he
    simp only [control_flow_rounds] at htr
    split at htr
    · exact absurd htr (by simp)
    · rename_i effs2 obj2 hstep
      split at htr
      · rename_i tr2 hrec
        simp only [Except.ok.injEq] at htr
        rw [← htr] at he
        rcases List.mem_append.mp he with he | he
        · rw [round_step_tags min_clients obj r (responses r) effs2 obj2 hstep e he]
          exact List.mem_cons_self _ _
        · exact List.mem_cons_of_mem _ (ih obj2 tr2 hrec e he)
      · exact absurd htr (by simp)

end ControlFlow

/-- C8: `write_round` is idempotent with respect to `round_number`: on
an initially consistent table, two successful calls with the same
`round_number` leave exactly one `training_rounds` row with that
`round_number`; the second call updates the existing row in place
(table size unchanged) and returns the same primary key as the first. -/
theorem write_round_idempotent
    (tbl : List RoundRow) (next_id : ℕ) (a1 a2 : WriteRoundArgs)
    (hwf : RoundTableWF tbl next_id)
    (hrn : a2.round_number = a1.round_number)
    (id1 id2 : Option ℕ) (tbl1 tbl2 : List RoundRow) (n1 n2 : ℕ)
    (h1 : write_round tbl next_id a1 = (id1, tbl1, n1))
    (h2 : write_round tbl1 n1 a2 = (id2, tbl2, n2)) :
    id2 = id1 ∧ (∃ j, id1 = some j) ∧
    (tbl2.filter fun r => r.round_number = a1.round_number).length = 1 ∧
    tbl2.length = tbl1.length := by
  obtain ⟨hid, hrnnd, hlt⟩ := hwf
  have hpp : ∀ q : RoundRow,
      (decide (q.round_number = a2.round_number)) =
      (decide (q.round_number = a1.round_number)) := by
    intro q
    rw [hrn]
  unfold write_round at h1
  cases hf1 : tbl.find? fun row => row.round_number = a1.round_number with
  | some row =>
    rw [hf1] at h1
    obtain ⟨hida, htbl1, hn1⟩ : some row.id = id1 ∧
        (tbl.map fun q => if q.id = row.id then updateRow q a1 else q) = tbl1 ∧
        next_id = n1 := by
      simpa using h1
    have hrow_mem : row ∈ tbl := List.mem_of_find?_eq_some hf1
    have hrow_rn : row.round_number = a1.round_number := by
      have := List.find?_some hf1
      simpa using this
    have hpres1 : ∀ x ∈ tbl,
        (decide ((if x.id = row.id then updateRow x a1 else x).round_number =
          a1.round_number)) = decide (x.round_number = a1.round_number) := by
      intro x hx
      by_cases hxid : x.id = row.id
      · have hxrow : x = row := List.inj_on_of_nodup_map hid hx hrow_mem hxid
        rw [if_pos hxid, hxrow]
        simp [updateRow, hrow_rn]
      · rw [if_neg hxid]
    have hfind2 : (tbl1.find? fun r => r.round_number = a1.round_number) =
        some (updateRow row a1) := by
      rw [← htbl1, find?_map_pres _ _ tbl hpres1, hf1]
      simp
    have h2val : write_round tbl1 n1 a2 =
        (some (updateRow row a1).id,
         tbl1.map fun q =>
           if q.id = (updateRow row a1).id then updateRow q a2 else q,
         n1) := by
      unfold write_round
      rw [find?_congr_pred _ _ tbl1 hpp, hfind2]
    have hcomb := h2val.symm.trans h2
    obtain ⟨hidb, htbl2, hn2⟩ : some (updateRow row a1).id = id2 ∧
        (tbl1.map fun q =>
          if q.id = (updateRow row a1).id then updateRow q a2 else q) = tbl2 ∧
        n1 = n2 := by
      simpa using hcomb
    have hupid : (updateRow row a1).id = row.id := rfl
    have hpres2 : ∀ x ∈ tbl1,
        (decide ((if x.id = (updateRow row a1).id then updateRow x a2
          else x).round_number = a1.round_number)) =
        decide (x.round_number = a1.round_number) := by
      intro x hx
      rw [← htbl1] at hx
      obtain ⟨y, hy, hyx⟩ := List.mem_map.mp hx
      by_cases hxid : x.id = (updateRow row a1).id
      · have hyid : y.id = row.id := by
          rw [hupid] at hxid
          rw [← hxid, ← hyx]
          by_cases hyr : y.id = row.id
          · rw [if_pos hyr]
            rfl
          · rw [if_neg hyr]
        have hyrow : y = row := List.inj_on_of_nodup_map hid hy hrow_mem hyid
        have hxval : x = updateRow row a1 := by
          rw [← hyx, hyrow, if_pos rfl]
        rw [if_pos hxid, hxval]
        simp [updateRow, hrn]
      · rw [if_neg hxid]
    have hcount1 : (tbl.filter fun r => r.round_number = a1.round_number).length
        = 1 := by
      have := filter_key_length_one RoundRow.round_number tbl hrnnd row hrow_mem
      rw [List.filter_congr fun x _ => by rw [hrow_rn]] at this
      exact this
    refine ⟨hidb.symm.trans hida, ⟨row.id, hida.symm⟩, ?_, ?_⟩
    · rw [← htbl2, filter_map_pres _ _ tbl1 hpres2, List.length_map, ← htbl1,
        filter_map_pres _ _ tbl hpres1, List.length_map]
      exact hcount1
    · rw [← htbl2, List.length_map]
  | none =>
    rw [hf1] at h1
    obtain ⟨hida, htbl1, hn1⟩ : some next_id = id1 ∧
        tbl ++ [insertRow next_id a1] = tbl1 ∧ next_id + 1 = n1 := by
      simpa using h1
    have hnew_rn : (insertRow next_id a1).round_number = a1.round_number := rfl
    have hfind2 : (tbl1.find? fun r => r.round_number = a1.round_number) =
        some (insertRow next_id a1) := by
      rw [← htbl1, find?_append_of_none _ tbl _ hf1]
      rw [List.find?_cons_of_pos _ (by simp [hnew_rn])]
    have h2val : write_round tbl1 n1 a2 =
        (some (insertRow next_id a1).id,
         tbl1.map fun q =>
           if q.id = (insertRow next_id a1).id then updateRow q a2 else q,
         n1) := by
      unfold write_round
      rw [find?_congr_pred _ _ tbl1 hpp, hfind2]
    have hcomb := h2val.symm.trans h2
    obtain ⟨hidb, htbl2, hn2⟩ : some (insertRow next_id a1).id = id2 ∧
        (tbl1.map fun q =>
          if q.id = (insertRow next_id a1).id then updateRow q a2 else q) = tbl2 ∧
        n1 = n2 := by
      simpa using hcomb
    have hnew_id : (insertRow next_id a1).id = next_id := rfl
    have hpres2 : ∀ x ∈ tbl1,
        (decide ((if x.id = (insertRow next_id a1).id then updateRow x a2
          else x).round_number = a1.round_number)) =
        decide (x.round_number = a1.round_number) := by
      intro x hx
      rw [← htbl1] at hx
      rcases List.mem_append.mp hx with hx | hx
      · have hxlt := hlt x hx
        rw [if_neg (by rw [hnew_id]; omega)]
      · simp only [List.mem_cons, List.not_mem_nil, or_false] at hx
        rw [hx, if_pos rfl]
        simp [updateRow, insertRow, hrn]
    have hfilt1 : (tbl1.filter fun r => r.round_number = a1.round_number) =
        [insertRow next_id a1] := by
      rw [← htbl1, List.filter_append]
      have hnil : (tbl.filter fun r => r.round_number = a1.round_number) = [] := by
        rw [List.filter_eq_nil_iff]
        intro b hb
        have := List.find?_eq_none.mp hf1 b hb
        simpa using this
      rw [hnil, List.nil_append,
        List.filter_cons_of_pos (by simp [hnew_rn]), List.filter_nil]
    refine ⟨hidb.symm.trans hida, ⟨next_id, hida.symm⟩, ?_, ?_⟩
    · rw [← htbl2, filter_map_pres _ _ tbl1 hpres2, List.length_map, hfilt1]
      rfl
    · rw [← htbl2, List.length_map]

/-- Concrete instance of round-upsert idempotence: writing round 5 into
an empty table inserts row ⟨1, 5, in_progress, 3⟩ and returns key 1; a
second write of round 5 updates that row in place to ⟨1, 5, failed, 2⟩,
returns the same key 1, and the table keeps exactly one row for round 5. -/
theorem write_round_idempotent_witness :
    (some 1 : Option ℕ) = some 1 ∧ (∃ j, (some 1 : Option ℕ) = some j) ∧
    (([(⟨1, 5, RoundStatus.failed, 2, none, none, none, none, none⟩ : RoundRow)].filter
        fun r => r.round_number = 5).length = 1) ∧
    ([(⟨1, 5, RoundStatus.failed, 2, none, none, none, none, none⟩ : RoundRow)]).length =
      ([(⟨1, 5, RoundStatus.in_progress, 3, none, none, none, none, none⟩ : RoundRow)]).length :=
  write_round_idempotent [] 1
    ⟨5, none, RoundStatus.in_progress, 3, none, none, none, none⟩
    ⟨5, none, RoundStatus.failed, 2, none, none, none, none⟩
    ⟨List.nodup_nil, List.nodup_nil, fun r hr => absurd hr (List.not_mem_nil r)⟩
    rfl (some 1) (some 1)
    [⟨1, 5, RoundStatus.in_progress, 3, none, none, none, none, none⟩]
    [⟨1, 5, RoundStatus.failed, 2, none, none, none, none, none⟩]
    2 2 rfl rfl

/-- C7: when fewer than `min_clients` OK responses are collected in a
round, the controller updates that round's row to status `failed`
(after the initial `in_progress` write), writes no round-metric,
client-update or trust-score row for it, and continues with the
remaining rounds instead of halting: the trace of the loop is exactly
the two round-row writes followed by whatever the remaining rounds
produce, and no effect of the remaining rounds references this round. -/
theorem quorum_failure_marks_failed_and_continues {κ : Type} [DecidableEq κ]
    (min_clients : ℕ) (obj : AggregatorObj)
    (responses : ℕ → List (Response κ)) (r : ℕ) (rest : List ℕ)
    (hq : ((responses r).filter fun cr => cr.ok).length < min_clients) :
    (round_step min_clients obj r (responses r) =
      Except.ok ([DBEffect.writeRound r RoundStatus.in_progress min_clients,
        DBEffect.writeRound r RoundStatus.failed
          ((responses r).filter fun cr => cr.ok).length], obj)) ∧
    (∀ e ∈ [DBEffect.writeRound r RoundStatus.in_progress min_clients,
        DBEffect.writeRound r RoundStatus.failed
          ((responses r).filter fun cr => cr.ok).length],
      e.isRoundWrite = true) ∧
    (control_flow_rounds min_clients obj responses (r :: rest) =
      (control_flow_rounds min_clients obj responses rest).map
        fun tr => DBEffect.writeRound r RoundStatus.in_progress min_clients ::
          DBEffect.writeRound r RoundStatus.failed
            ((responses r).filter fun cr => cr.ok).length :: tr) ∧
    (r ∉ rest → ∀ tr,
      control_flow_rounds min_clients obj responses rest = Except.ok tr →
      ∀ e ∈ tr, DBEffect.round e ≠ r) := by
  have h1 := round_step_quorum_failure min_clients obj r (responses r) hq
  refine ⟨h1, ?_, ?_, ?_⟩
  · intro e he
    simp only [List.mem_cons, List.not_mem_nil, or_false] at he
    rcases he with rfl | rfl <;> rfl
  · simp only [control_flow_rounds]
    rw [h1]
    cases hc : control_flow_rounds min_clients obj responses rest with
    | ok tr => simp [hc, Except.map]
    | error e2 => simp [hc, Except.map]
  · intro hnr tr htr e he hcontra
    have hmem := control_flow_rounds_tags min_clients responses rest obj tr htr e he
    rw [hcontra] at hmem
    exact hnr hmem

/-- Concrete instance: with `min_clients = 2` and no responses at all
in round 1, the round is marked failed with only the two round-row
writes, and the (empty) remaining schedule still runs. -/
theorem quorum_failure_marks_failed_and_continues_witness :
    (round_step 2 ⟨100, 1e-5, none⟩ 1 ([] : List (Response ℕ)) =
      Except.ok ([DBEffect.writeRound 1 RoundStatus.in_progress 2,
        DBEffect.writeRound 1 RoundStatus.failed
          ((([] : List (Response ℕ))).filter fun cr => cr.ok).length], ⟨100, 1e-5, none⟩)) ∧
    (∀ e ∈ [DBEffect.writeRound 1 RoundStatus.in_progress 2,
        DBEffect.writeRound 1 RoundStatus.failed
          ((([] : List (Response ℕ))).filter fun cr => cr.ok).length],
      e.isRoundWrite = true) ∧
    (control_flow_rounds 2 ⟨100, 1e-5, none⟩ (fun _ => ([] : List (Response ℕ))) (1 :: []) =
      (control_flow_rounds 2 ⟨100, 1e-5, none⟩ (fun _ => ([] : List (Response ℕ))) []).map
        fun tr => DBEffect.writeRound 1 RoundStatus.in_progress 2 ::
          DBEffect.writeRound 1 RoundStatus.failed
            ((([] : List (Response ℕ))).filter fun cr => cr.ok).length :: tr) ∧
    ((1 : ℕ) ∉ ([] : List ℕ) → ∀ tr,
      control_flow_rounds 2 ⟨100, 1e-5, none⟩ (fun _ => ([] : List (Response ℕ))) [] = Except.ok tr →
      ∀ e ∈ tr, DBEffect.round e ≠ 1) :=
  quorum_failure_marks_failed_and_continues 2 ⟨100, 1e-5, none⟩
    (fun _ => ([] : List (Response ℕ))) 1 [] (by norm_num)

/-- C2, counterexample: the orchestrator's head aggregation performs no
decryption. For two collected clients whose heads are the ciphertexts
`{h: cipher(2)}` and `{h: cipher(4)}` (min_clients = 2 satisfied), the
spec's "decrypt then mean" yields `{h: [3]}`, but the code calls
`torch.stack` on the raw bytes, which raises a `TypeError` instead of
producing a mean. -/
theorem mean_head_does_not_decrypt :
    mean_head [[((0 : ℕ), HVal.cipher [2])], [(0, HVal.cipher [4])]] =
      Except.error HeadAggError.typeError ∧
    mean_head_spec [[((0 : ℕ), HVal.cipher [2])], [(0, HVal.cipher [4])]] =
      [(0, [3])] := by
  constructor
  · rfl
  · simp only [mean_head_spec, List.map_cons, List.map_nil,
      List.filterMap_cons, List.filterMap_nil, lookupKey, decryptHVal, vecSum]
    norm_num [vecSum, decryptHVal]

/-- C2, amended: in the per-round aggregate step the controller does
not decrypt; `mean_head` is the empty map when `head_updates` is empty
(or the first client's head is empty), and when every collected head
value at the first client's keys is a plaintext tensor of a common
size, `mean_head` maps each of those keys to the element-wise
arithmetic mean of the raw values of the clients providing the key. -/
theorem mean_head_plain_characterization
    {κ : Type} [DecidableEq κ]
    (h0 : List (κ × HVal)) (rest : List (List (κ × HVal)))
    (hlook : ∀ k ∈ h0.map Prod.fst, ∃ L : ℕ, ∀ h ∈ h0 :: rest,
      ∃ d : List ℝ, lookupKey h k = some (HVal.tensor d) ∧ d.length = L) :
    mean_head ([] : List (List (κ × HVal))) = Except.ok [] ∧
    mean_head (h0 :: rest) = Except.ok ((h0.map Prod.fst).map fun k =>
      (k, (vecSum ((h0 :: rest).filterMap fun h =>
        (lookupKey h k).bind HVal.getData)).map fun x =>
          x / (((h0 :: rest).filterMap fun h =>
            (lookupKey h k).bind HVal.getData).length : ℝ))) := by
  refine ⟨rfl, ?_⟩
  match h0 with
  | [] => rfl
  | q :: h0tail =>
    have hgo := mean_head_go_plain ((q :: h0tail) :: rest)
      (by simp) ((q :: h0tail).map Prod.fst) hlook
    simp only [mean_head, List.isEmpty_cons, Bool.false_eq_true, if_false]
    exact hgo

/-- Concrete instance of the amended head aggregation: two plaintext
single-key heads `{h:[1,2]}` and `{h:[3,4]}` average to
`{h:[(1+3)/2, (2+4)/2]}` with no decryption step. -/
theorem mean_head_plain_characterization_witness :
    mean_head ([] : List (List (ℕ × HVal))) = Except.ok [] ∧
    mean_head [[((0 : ℕ), HVal.tensor [1, 2])], [(0, HVal.tensor [3, 4])]] =
      Except.ok (([((0 : ℕ), HVal.tensor [1, 2])].map Prod.fst).map fun k =>
        (k, (vecSum (([[((0 : ℕ), HVal.tensor [1, 2])],
            [(0, HVal.tensor [3, 4])]]).filterMap fun h =>
          (lookupKey h k).bind HVal.getData)).map fun x =>
            x / ((([[((0 : ℕ), HVal.tensor [1, 2])],
              [(0, HVal.tensor [3, 4])]]).filterMap fun h =>
              (lookupKey h k).bind HVal.getData).length : ℝ))) :=
  mean_head_plain_characterization [((0 : ℕ), HVal.tensor [1, 2])]
    [[(0, HVal.tensor [3, 4])]]
    (by
      intro k hk
      simp only [List.map_cons, List.map_nil, List.mem_cons,
        List.not_mem_nil, or_false] at hk
      subst hk
      refine ⟨2, ?_⟩
      intro h hh
      simp only [List.mem_cons, List.not_mem_nil, or_false] at hh
      rcases hh with rfl | rfl
      · exact ⟨[1, 2], by simp [lookupKey], by norm_num⟩
      · exact ⟨[3, 4], by simp [lookupKey], by norm_num⟩)

/-- C1, counterexample: `aggregate` with default parameters
(`max_iter = 100`, `eps = 1e-5`) on the three client updates
`{p:[0,0]}, {p:[1,0]}, {p:[0,1]}` returns a diagonal point `(r, r)`
that is NOT within absolute tolerance `0.01` of `(0.3113, 0.3113)`:
the iteration stays below `0.2212`, near the true geometric median
`(3-√3)/6 ≈ 0.21132`. -/
theorem aggregate_triangle_not_near_3113 :
    ∃ r, aggregate ⟨100, 1e-5⟩ updates3 = Except.ok [(0, ⟨[2], [r, r]⟩)] ∧
      ¬ (|r - 0.3113| ≤ 0.01) := by
  obtain ⟨r, k, heq, hlb, hub⟩ := weiszfeld_run
  refine ⟨r, aggregate_updates3 heq, ?_⟩
  intro habs
  have h2 := (abs_le.mp habs).1
  linarith

/-- C1, amended: `aggregate` with default parameters on
`{p:[0,0]}, {p:[1,0]}, {p:[0,1]}` returns a map whose value at the
shared key is within absolute tolerance `0.01` of
`[0.2113, 0.2113]` (the Fermat point `(3-√3)/6`), not of
`[0.3113, 0.3113]`. -/
theorem aggregate_triangle_near_2113 :
    ∃ r, aggregate ⟨100, 1e-5⟩ updates3 = Except.ok [(0, ⟨[2], [r, r]⟩)] ∧
      |r - 0.2113| ≤ 0.01 := by
  obtain ⟨r, k, heq, hlb, hub⟩ := weiszfeld_run
  refine ⟨r, aggregate_updates3 heq, ?_⟩
  rw [abs_le]
  constructor <;> linarith

/-- C4: `aggregate` does not store the Weiszfeld iteration count.
On the triangle input the run performs `k ≥ 1` iterations, yet the
object's `_last_iterations` attribute is still unset after the call
(`_num_iters` is discarded at `geometric_median.py:100`), so the
orchestrator's `getattr(self.aggregator, '_last_iterations', 0)`
always persists `0` as the round's `weiszfeld_iterations` metric. -/
theorem aggregate_iterations_not_observable :
    ∃ r k, weiszfeld ⟨100, 1e-5⟩ pts3 = ([r, r], k) ∧ 1 ≤ k ∧
      (aggregate_obj ⟨100, 1e-5, none⟩ updates3).2._last_iterations = none ∧
      weiszfeld_iters_persisted (aggregate_obj ⟨100, 1e-5, none⟩ updates3).2 = 0 := by
  obtain ⟨r, k, heq, hlb, hub⟩ := weiszfeld_run
  refine ⟨r, k, ?_, ?_, rfl, rfl⟩
  · rw [weiszfeld_pts3]
    exact heq
  · have h := weiszfeldAux_snd_ge_one pts3 1e-5 100 (by norm_num) 100
      [1 / 3, 1 / 3] (le_refl 100)
    rw [heq] at h
    exact h

/-- C6: for fixed `epsilon > 0` and `0 < delta < 1`, the
`epsilon_total` returned by `get_privacy_spent` — the advanced
composition bound `eps*sqrt(2*T*ln(1/delta)) + T*eps*(exp(eps)-1)`,
rounded to six decimals — is non-decreasing in the number of rounds `T`. -/
theorem get_privacy_spent_eps_total_mono (d : DPNoise) (T T' : ℕ)
    (heps : 0 < d.epsilon) (hd0 : 0 < d.delta) (hd1 : d.delta < 1)
    (hT : T ≤ T') :
    (get_privacy_spent d T).epsilon_total ≤
      (get_privacy_spent d T').epsilon_total := by
  unfold get_privacy_spent
  exact pyRound_mono 6 (eps_total_raw_mono d.epsilon d.delta heps hd0 hd1 hT)

/-- C9: on ciphertexts carrying at least as many slots as each
registered shape requires, `decrypt_head` fails with `MissingShape` if
and only if some key of the cipher map has no registered shape; when
every key is registered it returns, for each input key in order, a
tensor of exactly the registered shape whose data is the decrypted
flat output truncated to the product of that shape. -/
theorem decrypt_head_missing_shape_iff {κ : Type} [DecidableEq κ]
    (shapes : List (κ × List ℕ)) (m : List (κ × List ℝ))
    (hpay : ∀ p ∈ m, ∀ s, lookupKey shapes p.1 = some s → s.prod ≤ p.2.length) :
    (decrypt_head shapes m = Except.error HEDecryptError.missingShape ↔
      ∃ p ∈ m, lookupKey shapes p.1 = none) ∧
    ((∀ p ∈ m, lookupKey shapes p.1 ≠ none) →
      decrypt_head shapes m = Except.ok (m.map fun p =>
        (p.1, Tensor.mk ((lookupKey shapes p.1).getD [])
          (p.2.take ((lookupKey shapes p.1).getD []).prod)))) := by
  induction m with
  | nil =>
    constructor
    · constructor
      · intro h
        exact absurd h (by simp [decrypt_head])
      · rintro ⟨p, hp, _⟩
        exact absurd hp (List.not_mem_nil p)
    · intro _
      rfl
  | cons q rest ih =>
    obtain ⟨name, enc⟩ := q
    have hpay' : ∀ p ∈ rest, ∀ s, lookupKey shapes p.1 = some s →
        s.prod ≤ p.2.length :=
      fun p hp => hpay p (List.mem_cons_of_mem _ hp)
    obtain ⟨ih1, ih2⟩ := ih hpay'
    cases hlk : lookupKey shapes name with
    | none =>
      constructor
      · constructor
        · intro _
          exact ⟨(name, enc), List.mem_cons_self _ _, hlk⟩
        · intro _
          simp [decrypt_head, hlk]
      · intro hreg
        exact absurd hlk (hreg (name, enc) (List.mem_cons_self _ _))
    | some s =>
      have hsp : s.prod ≤ enc.length :=
        hpay (name, enc) (List.mem_cons_self _ _) s hlk
      have hdt : decrypt_tensor enc s = some ⟨s, enc.take s.prod⟩ := by
        unfold decrypt_tensor
        rw [if_pos]
        rw [List.length_take]
        exact min_eq_left hsp
      constructor
      · cases hdr : decrypt_head shapes rest with
        | ok r =>
          have hres : decrypt_head shapes ((name, enc) :: rest) =
              Except.ok ((name, ⟨s, enc.take s.prod⟩) :: r) := by
            simp [decrypt_head, hlk, hdt, hdr]
          rw [hres]
          constructor
          · intro h
            exact absurd h (by simp)
          · rintro ⟨p, hp, hnone⟩
            rcases List.mem_cons.mp hp with hp | hp
            · rw [hp] at hnone
              rw [hnone] at hlk
              exact absurd hlk (by simp)
            · have := ih1.mpr ⟨p, hp, hnone⟩
              rw [this] at hdr
              exact absurd hdr (by simp)
        | error e =>
          have hres : decrypt_head shapes ((name, enc) :: rest) =
              Except.error e := by
            simp [decrypt_head, hlk, hdt, hdr]
          rw [hres]
          constructor
          · intro h
            have he : e = HEDecryptError.missingShape := by
              injection h
            rw [he] at hdr
            obtain ⟨p, hp, hnone⟩ := ih1.mp hdr
            exact ⟨p, List.mem_cons_of_mem _ hp, hnone⟩
          · rintro ⟨p, hp, hnone⟩
            rcases List.mem_cons.mp hp with hp | hp
            · rw [hp] at hnone
              rw [hnone] at hlk
              exact absurd hlk (by simp)
            · have := ih1.mpr ⟨p, hp, hnone⟩
              rw [this] at hdr
              injection hdr with hdr2
              rw [hdr2]
      · intro hreg
        have hreg' : ∀ p ∈ rest, lookupKey shapes p.1 ≠ none :=
          fun p hp => hreg p (List.mem_cons_of_mem _ hp)
        have hrest := ih2 hreg'
        simp only [decrypt_head, hlk, hdt, hrest, List.map_cons]
        simp [hlk]

/-- Concrete instance of the `decrypt_head` contract: one registered
key of shape `[2]` with a three-slot ciphertext, and the `MissingShape`
failure on an unregistered key. -/
theorem decrypt_head_missing_shape_iff_witness :
    (decrypt_head [((0 : ℕ), [2])] [(0, [5, 6, 7])] =
        Except.error HEDecryptError.missingShape ↔
      ∃ p ∈ [((0 : ℕ), ([5, 6, 7] : List ℝ))], lookupKey [((0 : ℕ), [2])] p.1 = none) ∧
    ((∀ p ∈ [((0 : ℕ), ([5, 6, 7] : List ℝ))], lookupKey [((0 : ℕ), [2])] p.1 ≠ none) →
      decrypt_head [((0 : ℕ), [2])] [(0, [5, 6, 7])] =
        Except.ok ([((0 : ℕ), ([5, 6, 7] : List ℝ))].map fun p =>
          (p.1, Tensor.mk ((lookupKey [((0 : ℕ), [2])] p.1).getD [])
            (p.2.take ((lookupKey [((0 : ℕ), [2])] p.1).getD []).prod)))) :=
  decrypt_head_missing_shape_iff [((0 : ℕ), [2])] [(0, [5, 6, 7])]
    (by
      intro p hp s hs
      simp only [List.mem_cons, List.not_mem_nil, or_false] at hp
      subst hp
      simp [lookupKey] at hs
      subst hs
      norm_num)

/-- Concrete instance of `epsilon_total` monotonicity at
`epsilon = 1`, `delta = 1/2`, from 1 round to 2 rounds. -/
theorem get_privacy_spent_eps_total_mono_witness :
    (get_privacy_spent ⟨1, 1 / 2, 1, 1, 0⟩ 1).epsilon_total ≤
      (get_privacy_spent ⟨1, 1 / 2, 1, 1, 0⟩ 2).epsilon_total :=
  get_privacy_spent_eps_total_mono ⟨1, 1 / 2, 1, 1, 0⟩ 1 2
    (by norm_num) (by norm_num) (by norm_num) (by norm_num)

end FL
